import Mathlib

/-!
Verification development for the Caltech Course Tooltip extension.

The JavaScript sources are embedded shallowly:

* strings are `List Char` (`Str`), JS string primitives (`trim`, `split`,
  `indexOf`, `replace` with the concrete regexes used by the code,
  `toUpperCase`, ...) are modelled as executable Lean functions;
* every JS regular expression the embedded code uses is hand-compiled to a
  backtracking matcher built from a small set of combinators that reproduce
  the ECMAScript semantics (greedy quantifiers with backtracking, leftmost
  match, `lastIndex` advancement of `exec` with the `g` flag, `\b`,
  lookahead); each matcher's doc comment quotes the source regex;
* the catalog is a list of `Course` records; the asynchronous
  `findCourseMatch` message round-trip of the content script is modelled by
  an explicit resolver parameter `find : Str → Option Course`;
* fallible dynamic typing (calling `.find` on a non-array value) is
  modelled with `Except`.

Sources embedded: `background.js` (CourseMatchingUtils), the shared
utilities revision in `unnamed/part_003`, and the two content-script
scanner revisions in `unnamed/part_000` (catalog-driven compound
expansion) and `unnamed/part_001` (heuristic compound expansion, pattern
from `config.js`).
-/

set_option maxRecDepth 100000

/-! ## Basic string model -/

/-- JS strings, modelled as lists of characters. -/
abbrev Str := List Char

/-- Shorthand for string literals. -/
def str (s : String) : Str := s.data

/-- ASCII letter, the class `[A-Za-z]` (also `[a-z]` under the `i` flag). -/
def isAlphaC (c : Char) : Bool := c.isUpper || c.isLower

/-- Uppercase ASCII letter, the class `[A-Z]`. -/
def isUpperC (c : Char) : Bool := c.isUpper

/-- Lowercase ASCII letter, the class `[a-z]` (no `i` flag). -/
def isLowerC (c : Char) : Bool := c.isLower

/-- Decimal digit, the class `\d`. -/
def isDigitC (c : Char) : Bool := c.isDigit

/-- Whitespace, the class `\s` (restricted to the ASCII whitespace
characters that can occur in the texts we reason about). -/
def isWsC (c : Char) : Bool :=
  c = ' ' || c = '\t' || c = '\n' || c = '\r' || c = '\x0b' || c = '\x0c'

/-- JS word character, the class `\w` = `[A-Za-z0-9_]`. -/
def isWordC (c : Char) : Bool := isAlphaC c || isDigitC c || c = '_'

/-- The punctuation class `[.,;!?()\[\]{}]` used by the scanner lookaheads. -/
def isPunctC (c : Char) : Bool :=
  c = '.' || c = ',' || c = ';' || c = '!' || c = '?' || c = '(' || c = ')' ||
  c = '[' || c = ']' || c = Char.ofNat 123 || c = Char.ofNat 125

/-- `String.prototype.trim`. -/
def jsTrim (s : Str) : Str :=
  ((s.dropWhile isWsC).reverse.dropWhile isWsC).reverse

/-- `String.prototype.toUpperCase` (ASCII). -/
def toUpperStr (s : Str) : Str := s.map Char.toUpper

/-- `String.prototype.toLowerCase` (ASCII). -/
def toLowerStr (s : Str) : Str := s.map Char.toLower

/-- Worker for `collapseRuns`; the fuel (initially the string length)
makes the recursion structural. -/
def collapseRunsGo (p : Char → Bool) (repl : Str) : Nat → Str → Str
  | 0, s => s
  | _ + 1, [] => []
  | fuel + 1, c :: rest =>
    if p c then repl ++ collapseRunsGo p repl fuel (rest.dropWhile p)
    else c :: collapseRunsGo p repl fuel rest

/-- `s.replace(new RegExp(cls + '+', 'g'), repl)`: collapse every maximal
run of characters of class `p` into `repl`.  Instantiated for the source's
`replace(/\s+/g, …)` and `replace(/[\/\s]+/g, …)` calls. -/
def collapseRuns (p : Char → Bool) (repl : Str) (s : Str) : Str :=
  collapseRunsGo p repl s.length s

/-- Character class `[\/\s]` (slash or whitespace). -/
def isSlashWsC (c : Char) : Bool := c = '/' || isWsC c

/-- `s.replace(/[\/\s]+/g, '')`. -/
def removeSlashWs (s : Str) : Str := s.filter (fun c => !isSlashWsC c)

/-- Decimal value of a digit string (`parseInt` on the all-digit capture
strings produced by the scanners). -/
def strToNat (s : Str) : Nat :=
  s.foldl (fun a c => a * 10 + (c.toNat - '0'.toNat)) 0

/-- Decimal rendering of a number (JS template interpolation `${num}`). -/
def natToStr (n : Nat) : Str := (Nat.repr n).data

/-- Search for `pat` in a string, returning the first occurrence's index
(`String.prototype.indexOf` without the `-1` encoding). -/
def jsIndexOfCore (pat : Str) : Str → Option Nat
  | [] => if pat = [] then some 0 else none
  | c :: rest =>
    if List.isPrefixOf pat (c :: rest) then some 0
    else (jsIndexOfCore pat rest).map (· + 1)

/-- `s.indexOf(pat)` with the JS `-1` not-found result. -/
def jsIndexOf (s pat : Str) : Int :=
  match jsIndexOfCore pat s with
  | some n => (n : Int)
  | none => -1

/-- `s.indexOf(pat, from)`; a negative `from` is clamped to `0` as in JS. -/
def jsIndexOfFrom (s pat : Str) (frm : Int) : Int :=
  let f := frm.toNat
  match jsIndexOfCore pat (s.drop f) with
  | some n => ((f + n : Nat) : Int)
  | none => -1

/-- Worker for `jsSetDedup`, keeping the first occurrence of each element
(`new Set(array)` preserves insertion order). -/
def jsSetDedupGo (seen : List Str) : List Str → List Str
  | [] => []
  | x :: xs => if x ∈ seen then jsSetDedupGo seen xs else x :: jsSetDedupGo (x :: seen) xs

/-- `Array.from(new Set(list))`: deduplicate keeping first occurrences. -/
def jsSetDedup (l : List Str) : List Str := jsSetDedupGo [] l

/-- `String.prototype.split(sep)` for a one-character separator:
`"".split('/') = ['']`, `"a/".split('/') = ["a", ""]`. -/
def jsSplit (sep : Char) : Str → List Str
  | [] => [[]]
  | c :: rest =>
    match jsSplit sep rest with
    | [] => [[]]
    | h :: t => if c = sep then [] :: h :: t else (c :: h) :: t

/-- The slice of `t` between positions `a` (inclusive) and `b` (exclusive),
i.e. `t.slice(a, b)` / the text of a capture group spanning `[a, b)`. -/
def seg (t : Str) (a b : Nat) : Str := (t.drop a).take (b - a)

/-! ## Regex matcher combinators

Each JS regex used by the sources is hand-compiled from these pieces.  A
combinator consumes characters of `t` starting at a position and passes
every admissible end position — in the ECMAScript backtracking order,
greedy first — to a continuation `k`; the first success wins. -/

/-- Try consumption lengths `c, c-1, …, minN` (greedy order) at base
position `i`. -/
def tryDesc {R : Type} (k : Nat → Option R) (i minN : Nat) : Nat → Option R
  | 0 => if minN = 0 then k i else none
  | c + 1 =>
    if c + 1 < minN then none
    else
      match k (i + (c + 1)) with
      | some r => some r
      | none => tryDesc k i minN c

/-- Greedy bounded repetition of a character class: `cls{minN,maxN}`
(`maxN = none` for `cls*` / `cls+`). -/
def repCls {R : Type} (t : Str) (p : Char → Bool) (minN : Nat) (maxN : Option Nat)
    (i : Nat) (k : Nat → Option R) : Option R :=
  let run := ((t.drop i).takeWhile p).length
  let m := match maxN with | some mx => min run mx | none => run
  tryDesc k i minN m

/-- Match one literal character. -/
def chrTok {R : Type} (t : Str) (c : Char) (i : Nat) (k : Nat → Option R) : Option R :=
  if t[i]? = some c then k (i + 1) else none

/-- Match a literal string (case-sensitive). -/
def litTok {R : Type} (t lit : Str) (i : Nat) (k : Nat → Option R) : Option R :=
  if List.isPrefixOf lit (t.drop i) then k (i + lit.length) else none

/-- Match a literal string case-insensitively (`i` flag). -/
def litTokCI {R : Type} (t lit : Str) (i : Nat) (k : Nat → Option R) : Option R :=
  let sgm := (t.drop i).take lit.length
  if sgm.length = lit.length && toUpperStr sgm = toUpperStr lit then
    k (i + lit.length)
  else none

/-- Is the character at position `i` a word character (out-of-range counts
as a non-word position)? -/
def isWordAt (t : Str) (i : Nat) : Bool :=
  match t[i]? with
  | some c => isWordC c
  | none => false

/-- The `\b` word-boundary assertion at position `i`. -/
def wbAt (t : Str) (i : Nat) : Bool :=
  (match i with
   | 0 => false
   | j + 1 => isWordAt t j) != isWordAt t i

/-- Greedy Kleene star over a composite `body` (ECMAScript order: attempt
one more iteration before stopping).  `fuel` bounds the number of
iterations; every body used in this file consumes at least one character,
so `t.length + 1` fuel is never exhausted. -/
def starGrp {R : Type} (body : Nat → (Nat → Option R) → Option R) :
    Nat → Nat → (Nat → Option R) → Option R
  | 0, i, k => k i
  | fuel + 1, i, k =>
    match body i (fun j => starGrp body fuel j k) with
    | some r => some r
    | none => k i

/-- Leftmost match: try `matchAt` at `pos`, `pos+1`, … (`fuel` bounds the
scan, `t.length + 1 - pos` at the call sites). -/
def scanFrom {M : Type} (matchAt : Nat → Option M) : Nat → Nat → Option M
  | 0, _ => none
  | fuel + 1, pos =>
    match matchAt pos with
    | some m => some m
    | none => scanFrom matchAt fuel (pos + 1)

/-! ## Data model -/

/-- A catalog course record.  `code` is the JS `course_code_original`
property; `synthetic`/`sections` are the `is_synthetic`/`section_courses`
properties that only composer-generated records carry (absent JS
properties are modelled by the defaults `false`/`[]`). -/
inductive Course where
  | mk (code name units terms prereqs descr instrs : Str)
       (synthetic : Bool) (sections : List Course)

/-- `course.course_code_original`. -/
def Course.code : Course → Str
  | .mk c _ _ _ _ _ _ _ _ => c

/-- `course.name`. -/
def Course.name : Course → Str
  | .mk _ n _ _ _ _ _ _ _ => n

/-- `course.units`. -/
def Course.units : Course → Str
  | .mk _ _ u _ _ _ _ _ _ => u

/-- `course.terms`. -/
def Course.terms : Course → Str
  | .mk _ _ _ t _ _ _ _ _ => t

/-- `course.prerequisites`. -/
def Course.prereqs : Course → Str
  | .mk _ _ _ _ p _ _ _ _ => p

/-- `course.description`. -/
def Course.descr : Course → Str
  | .mk _ _ _ _ _ d _ _ _ => d

/-- `course.instructors`. -/
def Course.instrs : Course → Str
  | .mk _ _ _ _ _ _ i _ _ => i

/-- `course.is_synthetic`. -/
def Course.synthetic : Course → Bool
  | .mk _ _ _ _ _ _ _ s _ => s

/-- `course.section_courses`. -/
def Course.sections : Course → List Course
  | .mk _ _ _ _ _ _ _ _ ss => ss

instance : Inhabited Course := ⟨.mk [] [] [] [] [] [] [] false []⟩

/-- A catalog value as handed to the resolution entry points: either an
array of courses or some non-array JS value (`null`, a string, …). -/
inductive CatalogValue where
  | arr (courses : List Course)
  | nonList

/-! ## Anchored course-code regexes of `background.js`

These `^…$` patterns are applied by `CourseMatchingUtils` to strings that
were already upper-cased, so their classes are literal (`[A-Z]`, `[a-z]`);
only the section-parse regex carries the `i` flag. -/

/-- `^([A-Z]+)\s*(\d+)\s*([A-Z]*)$` (`matchSingleCourseWithLetters`,
applied to both the input variation and the course code).  Returns the
three captures. -/
def mSingle (s : Str) : Option (Str × Str × Str) :=
  repCls s isUpperC 1 none 0 (fun a =>
  repCls s isWsC 0 none a (fun b =>
  repCls s isDigitC 1 none b (fun c =>
  repCls s isWsC 0 none c (fun d =>
  repCls s isUpperC 0 none d (fun e =>
  if e = s.length then some (seg s 0 a, seg s b c, seg s d e) else none)))))

/-- The prefix group `[A-Z]+(?:\/[A-Z]+)*` common to the cross-listed
patterns, as a combinator. -/
def upperSlashGroup {R : Type} (s : Str) (i : Nat) (k : Nat → Option R) : Option R :=
  repCls s isUpperC 1 none i (fun j =>
  starGrp (fun j2 k2 => chrTok s '/' j2 (fun j3 => repCls s isUpperC 1 none j3 k2))
    (s.length + 1) j k)

/-- `^([A-Z]+(?:\/[A-Z]+)*)\s+(\d+)\/(\d+)\s*([A-Z]*)$`: the catalog-side
shape of the complex cross-listed rule (`matchCrossListedCourse`, first
block).  Returns (prefixes, first number, second number, letters). -/
def mCourseComplex (s : Str) : Option (Str × Str × Str × Str) :=
  upperSlashGroup s 0 (fun p =>
  repCls s isWsC 1 none p (fun a =>
  repCls s isDigitC 1 none a (fun b =>
  chrTok s '/' b (fun c =>
  repCls s isDigitC 1 none c (fun d =>
  repCls s isWsC 0 none d (fun e =>
  repCls s isUpperC 0 none e (fun f =>
  if f = s.length then some (seg s 0 p, seg s a b, seg s c d, seg s e f) else none)))))))

/-- `^([A-Z]+(?:\/[A-Z]+)*)\s*(\d+(?:\/\d+)?)\s*([A-Z]*)$`: the input-side
shape of the complex cross-listed rule.  Returns (prefixes, number group,
letters). -/
def mInputComplex (s : Str) : Option (Str × Str × Str) :=
  upperSlashGroup s 0 (fun p =>
  repCls s isWsC 0 none p (fun a =>
  repCls s isDigitC 1 none a (fun b =>
  (fun after =>
    match chrTok s '/' b (fun c => repCls s isDigitC 1 none c (fun d => after d)) with
    | some r => some r
    | none => after b)
  (fun nE =>
  repCls s isWsC 0 none nE (fun e =>
  repCls s isUpperC 0 none e (fun f =>
  if f = s.length then some (seg s 0 p, seg s a nE, seg s e f) else none))))))

/-- `^([A-Z]+(?:\/[A-Z]+)*)\s+(\d+)\s*([A-Z]*)$`: the catalog-side shape
of the simple cross-listed rule (`matchCrossListedCourse`, second
block). -/
def mCourseSimple (s : Str) : Option (Str × Str × Str) :=
  upperSlashGroup s 0 (fun p =>
  repCls s isWsC 1 none p (fun a =>
  repCls s isDigitC 1 none a (fun b =>
  repCls s isWsC 0 none b (fun c =>
  repCls s isUpperC 0 none c (fun d =>
  if d = s.length then some (seg s 0 p, seg s a b, seg s c d) else none)))))

/-- `^([A-Z]+(?:\/[A-Z]+)*)\s*(\d+)\s*([A-Z]*)$`: the input-side shape of
the simple cross-listed rule. -/
def mInputSimple (s : Str) : Option (Str × Str × Str) :=
  upperSlashGroup s 0 (fun p =>
  repCls s isWsC 0 none p (fun a =>
  repCls s isDigitC 1 none a (fun b =>
  repCls s isWsC 0 none b (fun c =>
  repCls s isUpperC 0 none c (fun d =>
  if d = s.length then some (seg s 0 p, seg s a b, seg s c d) else none)))))

/-- `^([A-Za-z][a-zA-Z]{0,4}(?:\/[A-Za-z][a-zA-Z]{0,4})*)\s+(\d{1,3})\s*([a-z]+)?$/i`:
the section-based parse used by `findSectionBasedMatch` (`background.js`
and `part_003`) and `findSectionCourses` (content script).  Under the `i`
flag `[a-z]+` matches letters of either case.  An absent letters group is
returned as the empty string. -/
def matchSectionParse (s : Str) : Option (Str × Str × Str) :=
  repCls s isAlphaC 1 (some 5) 0 (fun e1 =>
  starGrp (fun j k => chrTok s '/' j (fun j2 => repCls s isAlphaC 1 (some 5) j2 k))
    (s.length + 1) e1 (fun p =>
  repCls s isWsC 1 none p (fun a =>
  repCls s isDigitC 1 (some 3) a (fun b =>
  repCls s isWsC 0 none b (fun c =>
  match repCls s isAlphaC 1 none c
      (fun d => if d = s.length then some (d : Nat) else none) with
  | some d => some (seg s 0 p, seg s a b, seg s c d)
  | none => if c = s.length then some (seg s 0 p, seg s a b, []) else none)))))

/-! ## Catalog Matcher (`background.js`, class `CourseMatchingUtils`) -/

/-- `checkPrefixCompatibility(coursePrefixes, inputPrefixes)`
(`background.js:327-335`): every input prefix token must occur in the
course prefix list. -/
def checkPrefixCompatibility (coursePrefixes inputPrefixes : Str) : Bool :=
  (jsSplit '/' inputPrefixes).all (fun p => (jsSplit '/' coursePrefixes).contains (jsTrim p))

/-- `checkNumberCompatibility(inputNumbers, firstNumber, secondNumber)`
(`background.js:345-353`): exact string comparison of the number
tokens. -/
def checkNumberCompatibility (inputNumbers firstNumber secondNumber : Str) : Bool :=
  if inputNumbers.contains '/' then
    inputNumbers == firstNumber ++ '/' :: secondNumber
  else
    inputNumbers == firstNumber || inputNumbers == secondNumber

/-- `checkLetterCompatibility(inputLetters, courseLetters)`
(`background.js:362-370`). -/
def checkLetterCompatibility (inputLetters courseLetters : Str) : Bool :=
  if inputLetters = [] then true
  else if courseLetters = [] then false
  else inputLetters.all (fun c => courseLetters.contains c)

/-- `isLetterSubset(inputLetters, courseLetters)` (`part_003:179-190`):
the shared-utilities revision of the letter-subset check. -/
def isLetterSubset (inputLetters courseLetters : Str) : Bool :=
  if inputLetters = [] then true
  else if courseLetters = [] then false
  else inputLetters.all (fun c => courseLetters.contains c)

/-- The first block of `matchCrossListedCourse` (`background.js:247-261`):
complex cross-listed shape `P1/…/Pn N1/N2 L?`. -/
def complexBranch (originalCode inputVariation : Str) : Bool :=
  match mCourseComplex originalCode with
  | none => false
  | some (cp, n1, n2, cl) =>
    match mInputComplex inputVariation with
    | none => false
    | some (ip, ins, il) =>
      checkPrefixCompatibility cp ip && checkNumberCompatibility ins n1 n2 &&
        checkLetterCompatibility il cl

/-- The second block of `matchCrossListedCourse` (`background.js:264-278`):
simple cross-listed shape `P1/…/Pn N L?`. -/
def simpleBranch (originalCode inputVariation : Str) : Bool :=
  match mCourseSimple originalCode with
  | none => false
  | some (cp, cn, cl) =>
    match mInputSimple inputVariation with
    | none => false
    | some (ip, ino, il) =>
      checkPrefixCompatibility cp ip && ino == cn && checkLetterCompatibility il cl

/-- The fallback block of `matchCrossListedCourse`
(`background.js:281-292`): split the course code on `/` and compare each
segment, under normalizations, against the input. -/
def fallbackBranch (originalCode inputVariation : Str) : Bool :=
  (jsSplit '/' originalCode).any (fun part =>
    let trimmedPart := jsTrim part
    let normalizedPart := removeSlashWs trimmedPart
    let normalizedInput := removeSlashWs inputVariation
    trimmedPart == inputVariation || normalizedPart == normalizedInput ||
      trimmedPart.filter (fun c => !isWsC c) == inputVariation.filter (fun c => !isWsC c))

/-- `matchCrossListedCourse(originalCode, inputVariation)`
(`background.js:245-295`). -/
def matchCrossListedCourse (originalCode inputVariation : Str) : Bool :=
  complexBranch originalCode inputVariation ||
  simpleBranch originalCode inputVariation ||
  fallbackBranch originalCode inputVariation

/-- `matchSingleCourseWithLetters(originalCode, inputVariation)`
(`background.js:304-318`). -/
def matchSingleCourseWithLetters (originalCode inputVariation : Str) : Bool :=
  match mSingle inputVariation, mSingle originalCode with
  | some (ip, ino, il), some (cp, cn, cl) =>
    ip == cp && ino == cn && checkLetterCompatibility il cl
  | _, _ => false

/-- The direct-equality checks of `doesCourseMatch` (`background.js:214-218`):
equality after independently normalizing separators. -/
def dcmDirect (originalCode upperVariation : Str) : Bool :=
  originalCode == upperVariation ||
  collapseRuns isSlashWsC [' '] originalCode == upperVariation ||
  collapseRuns isSlashWsC ['/'] originalCode == upperVariation ||
  removeSlashWs originalCode == removeSlashWs upperVariation

/-- `doesCourseMatch(course, inputVariations)` (`background.js:201-235`). -/
def doesCourseMatch (course : Course) (inputVariations : List Str) : Bool :=
  if course.code = [] then false
  else
    let originalCode := toUpperStr (jsTrim course.code)
    inputVariations.any (fun variation =>
      let upperVariation := toUpperStr (jsTrim variation)
      dcmDirect originalCode upperVariation ||
      (originalCode.contains '/' && matchCrossListedCourse originalCode upperVariation) ||
      matchSingleCourseWithLetters originalCode upperVariation)

/-- `s.replace(/(\w+)(\d+)/g, '$1 $2')`: the position (≥ 1) of the
rightmost digit inside a word run that the backtracking `(\w+)` gives up
to `(\d+)`. -/
def lastDigitPos (run : Str) : Option Nat :=
  (List.range run.length).reverse.find? (fun k =>
    decide (1 ≤ k) && (match run[k]? with | some c => isDigitC c | none => false))

/-- `s.replace(/(\w+)(\d+)/g, '$1 $2')` ("add space between letters and
numbers").  Per ECMAScript semantics `(\w+)` is greedy and backtracks to
the rightmost digit of each word run, so the inserted space lands before
the final digit group of the run. -/
def rwdsGo : Nat → Str → Str
  | 0, s => s
  | _ + 1, [] => []
  | fuel + 1, c :: rest =>
    if isWordC c then
      let run := (c :: rest).takeWhile isWordC
      let after := (c :: rest).dropWhile isWordC
      match lastDigitPos run with
      | none => run ++ rwdsGo fuel after
      | some k =>
        let m := k + ((run.drop k).takeWhile isDigitC).length
        run.take k ++ ' ' :: seg run k m ++ rwdsGo fuel (run.drop m ++ after)
    else c :: rwdsGo fuel rest

/-- `s.replace(/(\w+)(\d+)/g, '$1 $2')`. -/
def replaceWordDigitSplit (s : Str) : Str := rwdsGo s.length s

/-- `s.replace(/(\w+)\s*(\d+)/g, '$1$2')` ("remove space between letters
and numbers").  The only runs this changes are word runs followed by
whitespace and then digits; a purely internal match reproduces its own
text. -/
def rwdjGo : Nat → Str → Str
  | 0, s => s
  | _ + 1, [] => []
  | fuel + 1, c :: rest =>
    if isWordC c then
      let run := (c :: rest).takeWhile isWordC
      let after := (c :: rest).dropWhile isWordC
      let ws := after.takeWhile isWsC
      let tail := after.dropWhile isWsC
      if ws ≠ [] && (match tail.head? with | some d => isDigitC d | none => false) then
        let digs := tail.takeWhile isDigitC
        run ++ digs ++ rwdjGo fuel (tail.drop digs.length)
      else
        match lastDigitPos run with
        | some k =>
          let m := k + ((run.drop k).takeWhile isDigitC).length
          run.take m ++ rwdjGo fuel (run.drop m ++ after)
        | none => run ++ rwdjGo fuel after
    else c :: rwdjGo fuel rest

/-- `s.replace(/(\w+)\s*(\d+)/g, '$1$2')`. -/
def replaceWordDigitJoin (s : Str) : Str := rwdjGo s.length s

/-- `generateCourseCodeVariations(courseCode)` (`background.js:174-192`):
deduplicated variants, empty entries dropped by `.filter(Boolean)`;
a falsy (empty) input yields `[]`. -/
def generateCourseCodeVariations (courseCode : Str) : List Str :=
  if courseCode = [] then []
  else
    (jsSetDedup
      [courseCode,
       jsTrim (collapseRuns isWsC [' '] courseCode),
       collapseRuns isWsC ['/'] courseCode,
       collapseRuns isSlashWsC [' '] courseCode,
       collapseRuns isWsC [] courseCode,
       replaceWordDigitSplit courseCode,
       replaceWordDigitJoin courseCode,
       toUpperStr courseCode,
       toLowerStr courseCode]).filter (fun v => v ≠ [])

/-! ## Synthetic Section Composer (`background.js:409-489`) -/

/-- `name.replace(/\s+[IVX]+$/, '')`: strip a trailing whitespace-separated
Roman-numeral token. -/
def stripTrailingRoman (s : Str) : Str :=
  let rev := s.reverse
  let ivx := rev.takeWhile (fun c => c = 'I' || c = 'V' || c = 'X')
  let rest := rev.drop ivx.length
  let ws := rest.takeWhile isWsC
  if ivx ≠ [] && ws ≠ [] then (rest.drop ws.length).reverse else s

/-- `name.replace(/\s+\([abcdef]\)$/, '')`: strip a trailing parenthesized
section letter. -/
def stripParenSection (s : Str) : Str :=
  match s.reverse with
  | ')' :: c :: '(' :: rest =>
    if (c = 'a' || c = 'b' || c = 'c' || c = 'd' || c = 'e' || c = 'f') &&
        (rest.takeWhile isWsC) ≠ [] then
      (rest.dropWhile isWsC).reverse
    else s
  | _ => s

/-- `name.replace(/\s+[abcdef]$/, '')`: strip a trailing bare section
letter. -/
def stripTrailingSection (s : Str) : Str :=
  match s.reverse with
  | c :: rest =>
    if (c = 'a' || c = 'b' || c = 'c' || c = 'd' || c = 'e' || c = 'f') &&
        (rest.takeWhile isWsC) ≠ [] then
      (rest.dropWhile isWsC).reverse
    else s
  | [] => s

/-- `generateSyntheticCourseName(originalName, department, number)`
(`background.js:476-489`). -/
def generateSyntheticCourseName (originalName department number : Str) : Str :=
  if originalName = [] then department ++ ' ' :: number ++ str " (Multi-section)"
  else
    let cleanedName :=
      jsTrim (stripTrailingSection (stripParenSection (stripTrailingRoman originalName)))
    if cleanedName = [] then department ++ ' ' :: number ++ str " (Multi-section)"
    else cleanedName

/-- The description text synthesized for a multi-section course
(`background.js:454`). -/
def syntheticDescription (letters : Str) : Str :=
  str "This course consists of multiple sections (" ++
  List.intercalate (str ", ") (letters.map (fun c => [c])) ++
  str "). Click repeatedly to cycle through individual sections for detailed information."

/-- The section-lookup loop of `findSectionBasedMatch`
(`background.js:432-442`): for each letter, the first catalog course
matching `"<department> <number> <letter>"`. -/
def sectionCoursesFound (department number letters : Str) (courses : List Course) :
    List Course :=
  letters.filterMap (fun letter =>
    courses.find? (fun course =>
      doesCourseMatch course
        (generateCourseCodeVariations (department ++ ' ' :: number ++ [' ', letter]))))

/-- `findSectionBasedMatch(courseCode, courses)` (`background.js:416-466`). -/
def findSectionBasedMatch (courseCode : Str) (courses : List Course) : Option Course :=
  match matchSectionParse courseCode with
  | none => none
  | some (department, number, letters) =>
    if letters.length ≤ 1 then none
    else
      let sectionCourses := sectionCoursesFound department number letters courses
      if 2 ≤ sectionCourses.length then
        some (.mk courseCode
          (generateSyntheticCourseName (sectionCourses.headI).name department number)
          (str "See individual sections")
          (str "See individual sections")
          (str "See individual sections")
          (syntheticDescription letters)
          (str "See individual sections")
          true
          sectionCourses)
      else none

/-- `findCourseInCatalog(courseCode, courses)` (`background.js:379-407`).
The guard `!courseCode || !Array.isArray(courses)` returns `null` for an
empty code or a non-array catalog; the `try`/`catch` wrapper means the
function never throws. -/
def findCourseInCatalog (courseCode : Str) (catalog : CatalogValue) : Option Course :=
  match catalog with
  | .nonList => none
  | .arr courses =>
    if courseCode = [] then none
    else
      let variations := generateCourseCodeVariations courseCode
      match courses.find? (fun course => doesCourseMatch course variations) with
      | some course => some course
      | none => findSectionBasedMatch courseCode courses

/-! ## Shared-utilities revision (`unnamed/part_003`) -/

/-- `generateCourseCodeVariations(courseCode)` (`part_003:27-39`): no
falsy-input guard, no `.filter(Boolean)`, no upper/lower variants. -/
def generateCourseCodeVariations_v2 (courseCode : Str) : List Str :=
  jsSetDedup
    [courseCode,
     collapseRuns isWsC [' '] courseCode,
     collapseRuns isWsC ['/'] courseCode,
     collapseRuns isSlashWsC [' '] courseCode,
     collapseRuns isWsC [] courseCode,
     replaceWordDigitSplit courseCode,
     replaceWordDigitJoin courseCode]

/-- The complex cross-listed block of `doesCourseMatch` (`part_003:62-107`);
prefix membership is checked without trimming in this revision. -/
def complexBranch_v2 (originalCode upperVariation : Str) : Bool :=
  match mCourseComplex originalCode with
  | none => false
  | some (cp, n1, n2, cl) =>
    match mInputComplex upperVariation with
    | none => false
    | some (ip, ins, il) =>
      ((jsSplit '/' ip).all (fun p => (jsSplit '/' cp).contains p)) &&
      (if ins.contains '/' then ins == n1 ++ '/' :: n2
       else ins == n1 || ins == n2) &&
      (if il ≠ [] then cl ≠ [] && isLetterSubset il cl else true)

/-- The simple cross-listed block of `doesCourseMatch` (`part_003:110-136`). -/
def simpleBranch_v2 (originalCode upperVariation : Str) : Bool :=
  match mCourseSimple originalCode with
  | none => false
  | some (cp, cn, cl) =>
    match mInputSimple upperVariation with
    | none => false
    | some (ip, ino, il) =>
      ((jsSplit '/' ip).all (fun p => (jsSplit '/' cp).contains p)) &&
      ino == cn &&
      (if il ≠ [] then cl ≠ [] && isLetterSubset il cl else true)

/-- The fallback slash-splitting block of `doesCourseMatch`
(`part_003:139-149`). -/
def fallbackBranch_v2 (originalCode upperVariation : Str) : Bool :=
  (jsSplit '/' originalCode).any (fun part =>
    let trimmedPart := jsTrim part
    let normalizedPart := removeSlashWs trimmedPart
    trimmedPart == upperVariation ||
    normalizedPart == removeSlashWs upperVariation ||
    trimmedPart.filter (fun c => !isWsC c) == upperVariation.filter (fun c => !isWsC c))

/-- The single-course block of `doesCourseMatch` (`part_003:153-169`). -/
def singleBranch_v2 (originalCode upperVariation : Str) : Bool :=
  match mSingle upperVariation, mSingle originalCode with
  | some (ip, ino, il), some (cp, cn, cl) =>
    ip == cp && ino == cn &&
    (if il ≠ [] then cl ≠ [] && isLetterSubset il cl else true)
  | _, _ => false

/-- `doesCourseMatch(course, inputVariations)` (`part_003:44-173`): this
revision upper-cases without trimming and reads an absent code as `''`. -/
def doesCourseMatch_v2 (course : Course) (inputVariations : List Str) : Bool :=
  let originalCode := toUpperStr course.code
  inputVariations.any (fun variation =>
    let upperVariation := toUpperStr variation
    dcmDirect originalCode upperVariation ||
    (originalCode.contains '/' &&
      (complexBranch_v2 originalCode upperVariation ||
       simpleBranch_v2 originalCode upperVariation ||
       fallbackBranch_v2 originalCode upperVariation)) ||
    singleBranch_v2 originalCode upperVariation)

/-- The section-lookup loop of `findSectionBasedMatch` (`part_003:233-243`). -/
def sectionCoursesFound_v2 (department number letters : Str) (courses : List Course) :
    List Course :=
  letters.filterMap (fun letter =>
    courses.find? (fun course =>
      doesCourseMatch_v2 course
        (generateCourseCodeVariations_v2 (department ++ ' ' :: number ++ [' ', letter]))))

/-- `findSectionBasedMatch(courseCode, courses)` (`part_003:218-264`); this
revision strips only the Roman-numeral suffix from the first section's
name. -/
def findSectionBasedMatch_v2 (courseCode : Str) (courses : List Course) : Option Course :=
  match matchSectionParse courseCode with
  | none => none
  | some (department, number, letters) =>
    if letters.length ≤ 1 then none
    else
      let sectionCourses := sectionCoursesFound_v2 department number letters courses
      if 2 ≤ sectionCourses.length then
        some (.mk courseCode
          (if (sectionCourses.headI).name ≠ [] then
            stripTrailingRoman (sectionCourses.headI).name
           else department ++ ' ' :: number ++ str " (Multi-section)")
          (str "See individual sections")
          (str "See individual sections")
          (str "See individual sections")
          (syntheticDescription letters)
          (str "See individual sections")
          true
          sectionCourses)
      else none

/-- `findCourseInCatalog(courseCode, courses)` (`part_003:195-212`): this
revision has no array guard and no `try`/`catch`, so calling
`courses.find` on a non-array value raises a `TypeError`, modelled as
`Except.error`. -/
def findCourseInCatalog_v2 (courseCode : Str) (catalog : CatalogValue) :
    Except Unit (Option Course) :=
  match catalog with
  | .nonList => .error ()
  | .arr courses =>
    let variations := generateCourseCodeVariations_v2 courseCode
    .ok (match courses.find? (fun course => doesCourseMatch_v2 course variations) with
         | some course => some course
         | none => findSectionBasedMatch_v2 courseCode courses)

/-! ## Candidate matches (content-script scanners) -/

/-- A candidate match object as pushed by `detectCourseInText` and its
helpers.  JS properties absent on a given kind of candidate are modelled
by the defaults. -/
structure Cand where
  fullMatch : Str
  index : Nat
  length : Nat
  prefixes : Str := []
  numbers : Str := []
  letters : Str := []
  isRange : Bool := false
  department : Str := []
  startNum : Nat := 0
  endNum : Nat := 0
  rangeCourses : List Str := []
  originalRangeMatch : Str := []
  isShorthand : Bool := false
  isFirstInShorthand : Bool := false
  shorthandDisplayText : Str := []
  originalText : Str := []
  originalShorthandMatch : Str := []
  isExpanded : Bool := false
  originalMatch : Str := []
  displayText : Option Str := none
deriving Repr, DecidableEq

instance : Inhabited Cand := ⟨{ fullMatch := [], index := 0, length := 0 }⟩

/-! ## Phase 1 — range detection (`part_000:908-961`, identical in
`part_001:640-686`) -/

/-- Successful match of the range pattern
`\b([A-Za-z][a-zA-Z]{1,4}(?:\/[A-Za-z][a-zA-Z]{1,4})*)\s*(\d{1,3})\s*-\s*(\d{1,3})\b`
(`gi` flags): capture-group boundaries into the scanned text.  The match
spans `[index, n2E)`. -/
structure RngM where
  index : Nat
  pfxE : Nat
  n1S : Nat
  n1E : Nat
  n2S : Nat
  n2E : Nat
deriving Repr, DecidableEq

/-- The `(?:\/[A-Za-z][a-zA-Z]{1,4})*` star of the prefix group (any-case
because of the `i` flag). -/
def slashAlphaBody (t : Str) (j : Nat) (k : Nat → Option RngM) : Option RngM :=
  chrTok t '/' j (fun j2 => repCls t isAlphaC 1 (some 4) j2 k)

/-- Try the range pattern anchored at position `i`. -/
def matchRngAt (t : Str) (i : Nat) : Option RngM :=
  if wbAt t i then
    repCls t isAlphaC 2 (some 5) i (fun e1 =>
    starGrp (fun j k => chrTok t '/' j (fun j2 => repCls t isAlphaC 1 (some 4) j2 k))
      (t.length + 1) e1 (fun p =>
    repCls t isWsC 0 none p (fun a =>
    repCls t isDigitC 1 (some 3) a (fun b =>
    repCls t isWsC 0 none b (fun c =>
    chrTok t '-' c (fun d =>
    repCls t isWsC 0 none d (fun e =>
    repCls t isDigitC 1 (some 3) e (fun f =>
    if wbAt t f then some ⟨i, p, a, b, e, f⟩ else none))))))))
  else none

/-- The `exec` loop of `detectRangeCourses`: scan, validate the range
bounds, generate the codes `"<department> <n>"`. -/
def detectRangeGo (t : Str) : Nat → Nat → List Cand
  | 0, _ => []
  | fuel + 1, pos =>
    match scanFrom (matchRngAt t) (t.length + 1 - pos) pos with
    | none => []
    | some m =>
      let department := seg t m.index m.pfxE
      let startNum := strToNat (seg t m.n1S m.n1E)
      let endNum := strToNat (seg t m.n2S m.n2E)
      let rest := detectRangeGo t fuel m.n2E
      if startNum ≥ endNum || endNum - startNum > 20 then rest
      else
        { fullMatch := seg t m.index m.n2E
          index := m.index
          length := m.n2E - m.index
          department := department
          startNum := startNum
          endNum := endNum
          rangeCourses :=
            (List.range' startNum (endNum - startNum + 1)).map
              (fun num => department ++ ' ' :: natToStr num)
          isRange := true
          originalRangeMatch := seg t m.index m.n2E } :: rest

/-- `detectRangeCourses(text)` (`part_000:908-961`). -/
def detectRangeCourses (t : Str) : List Cand := detectRangeGo t (t.length + 1) 0

/-! ## Phase 2 — shorthand detection (`part_000:809-905`) -/

/-- Successful match of the shorthand pattern: `index`, end of the prefix
capture `pfxE`, and end of the whole match `endPos`. -/
structure ShM where
  index : Nat
  pfxE : Nat
  endPos : Nat
deriving Repr, DecidableEq

/-- The separator alternation `(?:,\s*(?:and\s+)?|,?\s+and\s+)` of the
shorthand pattern (`and` case-insensitively because of the `i` flag). -/
def shSep {R : Type} (t : Str) (i : Nat) (k : Nat → Option R) : Option R :=
  match chrTok t ',' i (fun j =>
      repCls t isWsC 0 none j (fun j2 =>
        match litTokCI t (str "and") j2 (fun j3 => repCls t isWsC 1 none j3 k) with
        | some r => some r
        | none => k j2)) with
  | some r => some r
  | none =>
    match chrTok t ',' i (fun j =>
        repCls t isWsC 1 none j (fun j2 =>
          litTokCI t (str "and") j2 (fun j3 => repCls t isWsC 1 none j3 k))) with
    | some r => some r
    | none =>
      repCls t isWsC 1 none i (fun j2 =>
        litTokCI t (str "and") j2 (fun j3 => repCls t isWsC 1 none j3 k))

/-- One continuation item `\d{1,3}[a-z]{0,3}\s*(?:,\s*(?:and\s+)?|,?\s+and\s+|$)`
of the shorthand pattern (`[a-z]` is any-case under the `i` flag). -/
def shItem {R : Type} (t : Str) (i : Nat) (k : Nat → Option R) : Option R :=
  repCls t isDigitC 1 (some 3) i (fun a =>
  repCls t isAlphaC 0 (some 3) a (fun b =>
  repCls t isWsC 0 none b (fun c =>
  match shSep t c k with
  | some r => some r
  | none => if c = t.length then k c else none)))

/-- Try the shorthand pattern
`\b([A-Za-z][a-zA-Z]{1,4}(?:\/[A-Za-z][a-zA-Z]{1,4})*)\s*(\d{1,3})([a-z]{0,3})\s*(?:,\s*(?:and\s+)?|,?\s+and\s+)(?:\d{1,3}[a-z]{0,3}\s*(?:,\s*(?:and\s+)?|,?\s+and\s+|$))+`
(`gi` flags) anchored at position `i`. -/
def matchShV0At (t : Str) (i : Nat) : Option ShM :=
  if wbAt t i then
    repCls t isAlphaC 2 (some 5) i (fun e1 =>
    starGrp (fun j k => chrTok t '/' j (fun j2 => repCls t isAlphaC 1 (some 4) j2 k))
      (t.length + 1) e1 (fun p =>
    repCls t isWsC 0 none p (fun nS =>
    repCls t isDigitC 1 (some 3) nS (fun nE =>
    repCls t isAlphaC 0 (some 3) nE (fun lE =>
    repCls t isWsC 0 none lE (fun w =>
    shSep t w (fun s1 =>
    shItem t s1 (fun j =>
      starGrp (shItem t) (t.length + 1) j (fun fin => some ⟨i, p, fin⟩)))))))))
  else none

/-- One token of the inner number pattern `/\d{1,3}([a-z]{0,3})/g`
(case-sensitive: no `i` flag on this literal): returns (start, end of the
digits, end of the token). -/
def numTokV0At (s : Str) (i : Nat) : Option (Nat × Nat × Nat) :=
  repCls s isDigitC 1 (some 3) i (fun a =>
  repCls s isLowerC 0 (some 3) a (fun b => some (i, a, b)))

/-- All tokens of the inner number pattern over `s`, in `exec` order. -/
def numToksV0 (s : Str) : Nat → Nat → List (Nat × Nat × Nat)
  | 0, _ => []
  | fuel + 1, pos =>
    match scanFrom (numTokV0At s) (s.length + 1 - pos) pos with
    | none => []
    | some (st, dE, e) => (st, dE, e) :: numToksV0 s fuel e

/-- Build the candidate for the `i`-th number token of a shorthand match
(`part_000:851-894`). -/
def shCandsOfMatch (t : Str) (m : ShM) : List Cand :=
  let fm := seg t m.index m.endPos
  let prefixes := seg t m.index m.pfxE
  (numToksV0 fm (fm.length + 1) 0).enum.map (fun tok =>
    let numberText := seg fm tok.2.1 tok.2.2.2
    let justNumber := seg fm tok.2.1 tok.2.2.1
    let letters := seg fm tok.2.2.1 tok.2.2.2
    let highlightStart := if tok.1 = 0 then m.index else m.index + tok.2.1
    let highlightLength :=
      if tok.1 = 0 then tok.2.1 + numberText.length else numberText.length
    { fullMatch := jsTrim (prefixes ++ ' ' :: numberText)
      index := highlightStart
      length := highlightLength
      prefixes := prefixes
      numbers := justNumber
      letters := letters
      isShorthand := true
      isFirstInShorthand := tok.1 = 0
      shorthandDisplayText :=
        if tok.1 = 0 then prefixes ++ ' ' :: numberText else numberText
      originalText := seg t highlightStart (highlightStart + highlightLength)
      originalShorthandMatch := fm })

/-- The `exec` loop of `detectShorthandCourses` (`part_000:809-905`). -/
def detectShV0Go (t : Str) : Nat → Nat → List Cand
  | 0, _ => []
  | fuel + 1, pos =>
    match scanFrom (matchShV0At t) (t.length + 1 - pos) pos with
    | none => []
    | some m => shCandsOfMatch t m ++ detectShV0Go t fuel m.endPos

/-- `detectShorthandCourses(text)` (`part_000:809-905`).  (The function
also sets a `shorthandSpan` property on the returned array; nothing reads
it, so it is not modelled.) -/
def detectShorthandCourses (t : Str) : List Cand := detectShV0Go t (t.length + 1) 0

/-! ## Phase 3 — standard/compound detection -/

/-- Successful match of a phase-3 course-code pattern: `index`, end of the
prefix capture `pfxE`, bounds of the number-group capture `[numS, numE)`,
and bounds of the letters capture `[letS, letE)`.  The whole match spans
`[index, letE)` (the lookahead consumes nothing). -/
structure P3 where
  index : Nat
  pfxE : Nat
  numS : Nat
  numE : Nat
  letS : Nat
  letE : Nat
deriving Repr, DecidableEq

/-- The lookahead `(?=\s|$|[.,;!?()\[\]{}])` of the fallback pattern
inlined in `part_000:346`. -/
def lookV0 (t : Str) (p : Nat) : Bool :=
  match t[p]? with
  | some c => isWsC c || isPunctC c
  | none => true

/-- Try the part_000 fallback course-code pattern
`\b([A-Za-z][a-zA-Z]{1,4}(?:\/[A-Za-z][a-zA-Z]{1,4})*)\s*(\d{1,3}(?:\/\d{1,3})*)\s*([a-z]{0,3})(?=\s|$|[.,;!?()\[\]{}])`
(`gi` flags — under `i` the letters class `[a-z]` matches either case)
anchored at position `i`. -/
def matchP3v0At (t : Str) (i : Nat) : Option P3 :=
  if wbAt t i then
    repCls t isAlphaC 2 (some 5) i (fun e1 =>
    starGrp (fun j k => chrTok t '/' j (fun j2 => repCls t isAlphaC 1 (some 4) j2 k))
      (t.length + 1) e1 (fun p =>
    repCls t isWsC 0 none p (fun nS =>
    repCls t isDigitC 1 (some 3) nS (fun d1 =>
    starGrp (fun j k => chrTok t '/' j (fun j2 => repCls t isDigitC 1 (some 3) j2 k))
      (t.length + 1) d1 (fun nE =>
    repCls t isWsC 0 none nE (fun lS =>
    repCls t isAlphaC 0 (some 3) lS (fun lE =>
    if lookV0 t lE then some ⟨i, p, nS, nE, lS, lE⟩ else none)))))))
  else none

/-- Length of the whitespace run starting at position `p`. -/
def wsRunLen (t : Str) (p : Nat) : Nat := ((t.drop p).takeWhile isWsC).length

/-- The lookahead
`(?=\s*[.,;!?()\[\]{}]|$|\s*\n|\s+(?:and|or)(?:\s|$))` of the `config.js`
pattern (`and`/`or` case-insensitively under the `i` flag). -/
def lookCfg (t : Str) (p : Nat) : Bool :=
  let q := p + wsRunLen t p
  (match t[q]? with | some c => isPunctC c | none => false) ||
  p = t.length ||
  ((t.drop p).takeWhile isWsC).contains '\n' ||
  (1 ≤ wsRunLen t p &&
    ((litTokCI t (str "and") q (fun j =>
        if j = t.length || (match t[j]? with | some c => isWsC c | none => false) then
          some ()
        else none)).isSome ||
     (litTokCI t (str "or") q (fun j =>
        if j = t.length || (match t[j]? with | some c => isWsC c | none => false) then
          some ()
        else none)).isSome))

/-- Try the `config.js` course-code pattern
`\b([A-Za-z][a-zA-Z]{1,4}(?:\/[A-Za-z][a-zA-Z]{1,4})*(?:\/[A-Za-z][a-zA-Z]{1,4})*)\s+(\d{1,3}(?:\/\d{1,3})*)\s*([a-z]{1,3})?(?=\s*[.,;!?()\[\]{}]|$|\s*\n|\s+(?:and|or)(?:\s|$))`
(`gi` flags; the prefix star is written twice in the source) anchored at
position `i`.  An absent letters group gives `letS = letE`. -/
def matchP3cfgAt (t : Str) (i : Nat) : Option P3 :=
  if wbAt t i then
    repCls t isAlphaC 2 (some 5) i (fun e1 =>
    starGrp (fun j k => chrTok t '/' j (fun j2 => repCls t isAlphaC 1 (some 4) j2 k))
      (t.length + 1) e1 (fun p1 =>
    starGrp (fun j k => chrTok t '/' j (fun j2 => repCls t isAlphaC 1 (some 4) j2 k))
      (t.length + 1) p1 (fun p =>
    repCls t isWsC 1 none p (fun nS =>
    repCls t isDigitC 1 (some 3) nS (fun d1 =>
    starGrp (fun j k => chrTok t '/' j (fun j2 => repCls t isDigitC 1 (some 3) j2 k))
      (t.length + 1) d1 (fun nE =>
    (fun after =>
      match repCls t isAlphaC 1 (some 3) nE (fun lE => after lE) with
      | some r => some r
      | none => after nE)
    (fun lE =>
      if lookCfg t lE then some ⟨i, p, nS, nE, nE, lE⟩ else none)))))))
  else none

/-! ## Compound course-code expansion -/

/-- The dynamically built first-part regex of `expandCompoundCourseCode`:
`new RegExp('\\b' + prefixes.replace(/\//g, '\\/') + '\\s*' + numberParts[0] + letters)`
(`part_000:1086`, `part_001:809`).  Returns the length of the matched text
(`firstNumberMatch[0].length`), searching from the left as `String.match`
does. -/
def findFirstNumberPatternAt (t pfx n1l : Str) (j : Nat) : Option Nat :=
  if wbAt t j then
    litTok t pfx j (fun j2 =>
    repCls t isWsC 0 none j2 (fun j3 =>
    litTok t n1l j3 (fun j4 => some (j4 - j))))
  else none

/-- Scan for the first-part regex anywhere in `t`. -/
def findFirstNumberPattern (t pfx n1l : Str) : Option Nat :=
  scanFrom (findFirstNumberPatternAt t pfx n1l) (t.length + 1) 0

/-- `firstPartEnd` (`part_000:1088-1096`): the length of the
first-part regex match, or the fallback
`fullMatch.indexOf(numberParts[0] + letters) + (numberParts[0] + letters).length`
(in the unfound case JS computes `-1 + length`, hence the `length - 1`). -/
def firstPartEndOf (fullMatch pfx n1 letters : Str) : Nat :=
  match findFirstNumberPattern fullMatch pfx (n1 ++ letters) with
  | some len => len
  | none =>
    match jsIndexOfCore (n1 ++ letters) fullMatch with
    | some pos => pos + (n1 ++ letters).length
    | none => (n1 ++ letters).length - 1

/-- The additional-parts loop of `expandCompoundCourseCode`
(`part_000:1117-1138`, `part_001:839-861`): for each later number part,
locate its `/<number>` substring (searching from the position of the
previous part's `/<number>`, `-1` clamped to `0`) and emit a candidate
for it. -/
def expandTail (fullMatch : Str) (baseIndex : Nat) (prefixes letters : Str) :
    Str → List Str → List Cand
  | _, [] => []
  | prev, np :: rest =>
    let courseCode := prefixes ++ ' ' :: (np ++ letters)
    let searchPattern := '/' :: np
    let startPos := jsIndexOfFrom fullMatch searchPattern (jsIndexOf fullMatch ('/' :: prev))
    (if startPos ≠ -1 then
      [{ fullMatch := jsTrim courseCode
         index := baseIndex + startPos.toNat
         length := searchPattern.length + letters.length
         prefixes := prefixes
         numbers := np
         letters := letters
         isExpanded := true
         originalMatch := fullMatch
         displayText := some ('/' :: (np ++ letters)) }]
     else []) ++ expandTail fullMatch baseIndex prefixes letters np rest

/-- The unexpanded single-candidate result returned by
`expandCompoundCourseCode` on its non-compound and safe-default paths. -/
def singleCandOf (fullMatch : Str) (baseIndex : Nat) (prefixes numbers letters : Str) :
    Cand :=
  { fullMatch := jsTrim fullMatch
    index := baseIndex
    length := fullMatch.length
    prefixes := prefixes
    numbers := numbers
    letters := letters }

/-- The expanded candidate list (first part plus `/N` parts) shared by
both revisions of `expandCompoundCourseCode` once expansion has been
decided (`part_000:1082-1141`, `part_001:800-863`). -/
def expandedCands (fullMatch : Str) (baseIndex : Nat)
    (prefixes letters : Str) (numberParts : List Str) : List Cand :=
  let n1 := numberParts.headI
  let firstCourse := prefixes ++ ' ' :: (n1 ++ letters)
  let firstPartEnd := firstPartEndOf fullMatch prefixes n1 letters
  { fullMatch := jsTrim firstCourse
    index := baseIndex
    length := firstPartEnd
    prefixes := prefixes
    numbers := n1
    letters := letters
    isExpanded := true
    originalMatch := fullMatch } ::
  expandTail fullMatch baseIndex prefixes letters n1 numberParts.tail

/-- The individual-lookup loop of `expandCompoundCourseCode`
(`part_000:1058-1077`): accumulate the resolving individual codes and the
`allIndividualExist` flag. -/
def individualScan (find : Str → Option Course) (prefixes letters : Str)
    (numberParts : List Str) : List (Str × Str × Course) × Bool :=
  numberParts.foldl
    (fun st np =>
      let individualCourseCode := jsTrim (prefixes ++ ' ' :: (np ++ letters))
      match find individualCourseCode with
      | some course => (st.1 ++ [(individualCourseCode, np, course)], st.2)
      | none => (st.1, false))
    ([], true)

/-- `expandCompoundCourseCode(originalMatch, prefixes, numbers, letters)`
of the catalog-driven revision (`part_000:1009-1154`).  `find` models the
`findCourseMatch` message round-trip to the background script. -/
def expandCompoundCourseCode (find : Str → Option Course) (fullMatch : Str)
    (baseIndex : Nat) (prefixes numbers letters : Str) : List Cand :=
  let numberParts := jsSplit '/' numbers
  if numberParts.length ≤ 1 then
    [singleCandOf fullMatch baseIndex prefixes numbers letters]
  else
    let fullCourseCode := jsTrim (prefixes ++ ' ' :: (numbers ++ letters))
    match find fullCourseCode with
    | some _ => [singleCandOf fullMatch baseIndex prefixes numbers letters]
    | none =>
      let scan := individualScan find prefixes letters numberParts
      if scan.2 && 1 < scan.1.length then
        expandedCands fullMatch baseIndex prefixes letters numberParts
      else
        [singleCandOf fullMatch baseIndex prefixes numbers letters]

/-- `expandCompoundCourseCode(originalMatch, prefixes, numbers, letters)`
of the heuristic revision (`part_001:741-864`): no catalog consultation;
with several prefixes it expands iff the first two numbers differ by at
most 5, with a single prefix group it always expands. -/
def expandCompoundCourseCode_v1 (fullMatch : Str) (baseIndex : Nat)
    (prefixes numbers letters : Str) : List Cand :=
  let numberParts := jsSplit '/' numbers
  if numberParts.length ≤ 1 then
    [singleCandOf fullMatch baseIndex prefixes numbers letters]
  else
    let prefixParts := jsSplit '/' prefixes
    if 1 < prefixParts.length && 1 < numberParts.length then
      let firstNum := strToNat numberParts.headI
      let secondNum := strToNat (numberParts.tail.headI)
      let numDiff := ((secondNum : Int) - (firstNum : Int)).natAbs
      if numDiff ≤ 5 then
        expandedCands fullMatch baseIndex prefixes letters numberParts
      else
        [singleCandOf fullMatch baseIndex prefixes numbers letters]
    else
      expandedCands fullMatch baseIndex prefixes letters numberParts

/-! ## `detectCourseInText` — catalog-driven revision (`part_000:749-806`) -/

/-- The phase-3 `exec` loop of `part_000:767-802`: scan with the fallback
pattern, skip matches overlapping a shorthand candidate span, expand
compound number groups via the catalog, emit plain candidates
otherwise. -/
def p3LoopV0 (find : Str → Option Course) (t : Str) (shorthandMatches : List Cand) :
    Nat → Nat → List Cand
  | 0, _ => []
  | fuel + 1, pos =>
    match scanFrom (matchP3v0At t) (t.length + 1 - pos) pos with
    | none => []
    | some m =>
      let rest := p3LoopV0 find t shorthandMatches fuel m.letE
      let matchStart := m.index
      let matchEnd := m.letE
      if shorthandMatches.any (fun sh =>
          matchStart < sh.index + sh.length && matchEnd > sh.index) then rest
      else
        let fullMatch := seg t m.index m.letE
        let prefixes := seg t m.index m.pfxE
        let numbers := seg t m.numS m.numE
        let letters := seg t m.letS m.letE
        (if numbers.contains '/' then
          expandCompoundCourseCode find fullMatch m.index prefixes numbers letters
         else
          [singleCandOf fullMatch m.index prefixes numbers letters]) ++ rest

/-- The phase-3 candidates of one scan (everything the `while` loop of
`detectCourseInText` pushes). -/
def phase3Cands (find : Str → Option Course) (t : Str) (shorthandMatches : List Cand) :
    List Cand :=
  p3LoopV0 find t shorthandMatches (t.length + 1) 0

/-- `detectCourseInText(text)` (`part_000:749-806`): range candidates,
then shorthand candidates, then the phase-3 candidates. -/
def detectCourseInText (find : Str → Option Course) (t : Str) : List Cand :=
  let rangeMatches := detectRangeCourses t
  let shorthandMatches := detectShorthandCourses t
  rangeMatches ++ shorthandMatches ++ phase3Cands find t shorthandMatches

/-! ## `detectCourseInText` — heuristic revision (`part_001:466-531`) -/

/-- Try the part_001 shorthand pattern
`\b([A-Za-z][a-zA-Z]{1,4}(?:\/[A-Za-z][a-zA-Z]{1,4})*(?:\/[A-Za-z][a-zA-Z]{1,4})*)\s+(\d{1,3})([a-z]*)\s*,\s*(\d{1,3})([a-z]*)(?:\s*,\s*(?:and\s+)?(\d{1,3})([a-z]*))?\b`
(`g` flag only, so all classes and the `and` literal are case-sensitive)
anchored at position `i`. -/
def shV1OptAnd {R : Type} (t : Str) (d3 : Nat) (afterAnd : Nat → Option R) : Option R :=
  match litTok t (str "and") d3 (fun d4 =>
      repCls t isWsC 1 none d4 (fun d5 => afterAnd d5)) with
  | some r => some r
  | none => afterAnd d3

/-- The optional third-number group
`(?:\s*,\s*(?:and\s+)?(\d{1,3})([a-z]*))?` of the part_001 shorthand
pattern: try it greedily, fall back to skipping it. -/
def shV1OptThird {R : Type} (t : Str) (blE : Nat) (finish : Nat → Option R) : Option R :=
  match repCls t isWsC 0 none blE (fun d1 =>
      chrTok t ',' d1 (fun d2 =>
      repCls t isWsC 0 none d2 (fun d3 =>
      shV1OptAnd t d3 (fun d6 =>
      repCls t isDigitC 1 (some 3) d6 (fun d7 =>
      repCls t isLowerC 0 none d7 (fun d8 => finish d8)))))) with
  | some r => some r
  | none => finish blE

def matchShV1At (t : Str) (i : Nat) : Option ShM :=
  if wbAt t i then
    repCls t isAlphaC 2 (some 5) i (fun e1 =>
    starGrp (fun j k => chrTok t '/' j (fun j2 => repCls t isAlphaC 1 (some 4) j2 k))
      (t.length + 1) e1 (fun p1 =>
    starGrp (fun j k => chrTok t '/' j (fun j2 => repCls t isAlphaC 1 (some 4) j2 k))
      (t.length + 1) p1 (fun p =>
    repCls t isWsC 1 none p (fun aS =>
    repCls t isDigitC 1 (some 3) aS (fun aE =>
    repCls t isLowerC 0 none aE (fun alE =>
    repCls t isWsC 0 none alE (fun c1 =>
    chrTok t ',' c1 (fun c2 =>
    repCls t isWsC 0 none c2 (fun bS =>
    repCls t isDigitC 1 (some 3) bS (fun bE =>
    repCls t isLowerC 0 none bE (fun blE =>
    shV1OptThird t blE (fun fin =>
      if wbAt t fin then some ⟨i, p, fin⟩ else none))))))))))))
  else none

/-- One token of the part_001 inner number pattern `/\d{1,3}[a-z]*/g`
(case-sensitive). -/
def numTokV1At (s : Str) (i : Nat) : Option (Nat × Nat × Nat) :=
  repCls s isDigitC 1 (some 3) i (fun a =>
  repCls s isLowerC 0 none a (fun b => some (i, a, b)))

/-- All tokens of the part_001 inner number pattern over `s`. -/
def numToksV1 (s : Str) : Nat → Nat → List (Nat × Nat × Nat)
  | 0, _ => []
  | fuel + 1, pos =>
    match scanFrom (numTokV1At s) (s.length + 1 - pos) pos with
    | none => []
    | some (st, dE, e) => (st, dE, e) :: numToksV1 s fuel e

/-- Candidates for one part_001 shorthand match (`part_001:594-632`); the
first candidate's length is computed as
`prefixes.length + 1 + numberText.length` in this revision. -/
def shCandsOfMatchV1 (t : Str) (m : ShM) : List Cand :=
  let fm := seg t m.index m.endPos
  let prefixes := seg t m.index m.pfxE
  (numToksV1 fm (fm.length + 1) 0).enum.map (fun tok =>
    let numberText := seg fm tok.2.1 tok.2.2.2
    let justNumber := seg fm tok.2.1 tok.2.2.1
    let letters := seg fm tok.2.2.1 tok.2.2.2
    let highlightStart := if tok.1 = 0 then m.index else m.index + tok.2.1
    let highlightLength :=
      if tok.1 = 0 then prefixes.length + 1 + numberText.length else numberText.length
    { fullMatch := jsTrim (prefixes ++ ' ' :: numberText)
      index := highlightStart
      length := highlightLength
      prefixes := prefixes
      numbers := justNumber
      letters := letters
      isShorthand := true
      isFirstInShorthand := tok.1 = 0
      shorthandDisplayText :=
        if tok.1 = 0 then prefixes ++ ' ' :: numberText else numberText
      originalShorthandMatch := fm })

/-- The `exec` loop of the part_001 `detectShorthandCourses`
(`part_001:534-637`), with its `processedRanges` overlap filter. -/
def detectShV1Go (t : Str) : Nat → Nat → List (Nat × Nat) → List Cand
  | 0, _, _ => []
  | fuel + 1, pos, processed =>
    match scanFrom (matchShV1At t) (t.length + 1 - pos) pos with
    | none => []
    | some m =>
      if processed.any (fun r => m.index < r.2 && m.endPos > r.1) then
        detectShV1Go t fuel m.endPos processed
      else
        shCandsOfMatchV1 t m ++
          detectShV1Go t fuel m.endPos (processed ++ [(m.index, m.endPos)])

/-- `detectShorthandCourses(text)` (`part_001:534-637`). -/
def detectShorthandCourses_v1 (t : Str) : List Cand :=
  detectShV1Go t (t.length + 1) 0 []

/-- The phase-3 `exec` loop of `part_001:487-526`: the `config.js`
pattern, overlap suppression against both range and shorthand candidates,
and heuristic expansion only when both the number group and the prefix
group contain `/`. -/
def p3LoopV1 (t : Str) (allSpecialMatches : List Cand) : Nat → Nat → List Cand
  | 0, _ => []
  | fuel + 1, pos =>
    match scanFrom (matchP3cfgAt t) (t.length + 1 - pos) pos with
    | none => []
    | some m =>
      let rest := p3LoopV1 t allSpecialMatches fuel m.letE
      if allSpecialMatches.any (fun sp =>
          m.index < sp.index + sp.length && m.letE > sp.index) then rest
      else
        let fullMatch := seg t m.index m.letE
        let prefixes := seg t m.index m.pfxE
        let numbers := seg t m.numS m.numE
        let letters := seg t m.letS m.letE
        (if numbers.contains '/' && prefixes.contains '/' then
          expandCompoundCourseCode_v1 fullMatch m.index prefixes numbers letters
         else
          [singleCandOf fullMatch m.index prefixes numbers letters]) ++ rest

/-- `detectCourseInText(text)` of the heuristic revision
(`part_001:466-531`). -/
def detectCourseInText_v1 (t : Str) : List Cand :=
  let rangeMatches := detectRangeCourses t
  let shorthandMatches := detectShorthandCourses_v1 t
  rangeMatches ++ shorthandMatches ++
    p3LoopV1 t (rangeMatches ++ shorthandMatches) (t.length + 1) 0

/-! ## Resolution Orchestrator (`part_000:1156-1315`) -/

/-- A section-course entry built by `findSectionCourses` (`part_000:965-1005`). -/
structure SectionC where
  code : Str
  data : Course
  letter : Char

/-- `findSectionCourses(courseCode)` (`part_000:965-1005`). -/
def findSectionCourses (find : Str → Option Course) (courseCode : Str) : List SectionC :=
  match matchSectionParse courseCode with
  | none => []
  | some (department, number, letters) =>
    if letters.length ≤ 1 then []
    else
      letters.filterMap (fun letter =>
        (find (department ++ ' ' :: number ++ [' ', letter])).map (fun course =>
          ⟨department ++ ' ' :: number ++ [' ', letter], course, letter⟩))

/-- An entry of `validRangeCourses` (`part_000:1180-1196`). -/
structure RangeEntry where
  courseCode : Str
  course : Course
  hasSections : Bool := false
  sectionCourses : List SectionC := []

/-- A validated match: the candidate (JS property `match`), its resolved
course, and — for ranges — the resolved `{code, course}` cycle list. -/
structure Valid where
  cand : Cand
  course : Course
  isRangeMatch : Bool := false
  validRangeCourses : List RangeEntry := []

/-- The validation loop of `processTextNode` (`part_000:1174-1216`). -/
def validateMatches (find : Str → Option Course) : List Cand → List Valid
  | [] => []
  | m :: rest =>
    let tailV := validateMatches find rest
    if m.isRange then
      let validRangeCourses : List RangeEntry := m.rangeCourses.filterMap (fun code =>
        match find code with
        | some course => some ⟨code, course, false, []⟩
        | none =>
          let sectionCourses := findSectionCourses find code
          match sectionCourses.head? with
          | some s0 => some ⟨code ++ str " (multi-section)", s0.data, true, sectionCourses⟩
          | none => none)
      match validRangeCourses.head? with
      | some primary => ⟨m, primary.course, true, validRangeCourses⟩ :: tailV
      | none => tailV
    else
      match find m.fullMatch with
      | some course => ⟨m, course, false, []⟩ :: tailV
      | none => tailV

/-- The ValidatedMatch list `processTextNode` renders (`part_000:1156-1228`):
the validated candidates of one text node, sorted ascending by `index`
(`validMatches.sort((a, b) => a.match.index - b.match.index)`;
the modern-engine `Array.sort` is stable, as is insertion sort). -/
def processTextNode (find : Str → Option Course) (t : Str) : List Valid :=
  List.insertionSort (fun a b => a.cand.index ≤ b.cand.index)
    (validateMatches find (detectCourseInText find t))

/-! ## Helper lemmas -/

theorem jsSplit_ne_nil (sep : Char) (l : Str) : jsSplit sep l ≠ [] := by
  cases l with
  | nil => simp [jsSplit]
  | cons c rest =>
    cases h : jsSplit sep rest with
    | nil => simp [jsSplit, h]
    | cons h' t =>
      simp only [jsSplit, h]
      split <;> simp

theorem jsSplit_length_ge_two (sep : Char) (l : Str) (h : sep ∈ l) :
    2 ≤ (jsSplit sep l).length := by
  induction l with
  | nil => cases h
  | cons c rest ih =>
    obtain ⟨h', t, ht⟩ := List.exists_cons_of_ne_nil (jsSplit_ne_nil sep rest)
    simp only [jsSplit, ht]
    by_cases hc : c = sep
    · simp [hc]
    · simp only [if_neg hc, List.length_cons]
      have hmem : sep ∈ rest := by
        rcases List.mem_cons.mp h with h1 | h1
        · exact absurd h1.symm hc
        · exact h1
      have := ih hmem
      rw [ht] at this
      simp only [List.length_cons] at this
      omega

theorem individualScan_foldl_snd (find : Str → Option Course) (pfx lets : Str)
    (parts : List Str) (acc : List (Str × Str × Course) × Bool) :
    (parts.foldl
      (fun st np =>
        let individualCourseCode := jsTrim (pfx ++ ' ' :: (np ++ lets))
        match find individualCourseCode with
        | some course => (st.1 ++ [(individualCourseCode, np, course)], st.2)
        | none => (st.1, false))
      acc).2 =
    (acc.2 && parts.all (fun np => (find (jsTrim (pfx ++ ' ' :: (np ++ lets)))).isSome)) := by
  induction parts generalizing acc with
  | nil => simp
  | cons np rest ih =>
    simp only [List.foldl_cons, List.all_cons]
    cases h : find (jsTrim (pfx ++ ' ' :: (np ++ lets))) with
    | none => simp only [h, ih, Option.isSome_none, Bool.false_and, Bool.and_false]
    | some c => simp only [h, ih, Option.isSome_some, Bool.true_and]

theorem individualScan_snd (find : Str → Option Course) (pfx lets : Str)
    (parts : List Str) :
    (individualScan find pfx lets parts).2 =
      parts.all (fun np => (find (jsTrim (pfx ++ ' ' :: (np ++ lets)))).isSome) := by
  unfold individualScan
  rw [individualScan_foldl_snd]
  simp

theorem jsSetDedupGo_subset_seen (l : List Str) :
    ∀ seen x, x ∈ jsSetDedupGo seen l → x ∉ seen := by
  induction l with
  | nil => intro seen x h; cases h
  | cons a rest ih =>
    intro seen x h
    simp only [jsSetDedupGo] at h
    by_cases ha : a ∈ seen
    · rw [if_pos ha] at h
      exact ih seen x h
    · rw [if_neg ha] at h
      rcases List.mem_cons.mp h with rfl | h2
      · exact ha
      · intro hx
        exact ih (a :: seen) x h2 (List.mem_cons_of_mem a hx)

theorem jsSetDedupGo_nodup (l : List Str) : ∀ seen, (jsSetDedupGo seen l).Nodup := by
  induction l with
  | nil => intro seen; simp [jsSetDedupGo]
  | cons a rest ih =>
    intro seen
    simp only [jsSetDedupGo]
    by_cases ha : a ∈ seen
    · rw [if_pos ha]; exact ih seen
    · rw [if_neg ha]
      refine List.nodup_cons.mpr ⟨?_, ih (a :: seen)⟩
      intro hmem
      exact jsSetDedupGo_subset_seen rest (a :: seen) a hmem (List.mem_cons_self a seen)

theorem jsSetDedup_nodup (l : List Str) : (jsSetDedup l).Nodup :=
  jsSetDedupGo_nodup l []

theorem jsSetDedup_head_mem (x : Str) (rest : List Str) : x ∈ jsSetDedup (x :: rest) := by
  simp [jsSetDedup, jsSetDedupGo]

/-! ## Claim theorems -/

/-- C4: the letter-subset check returns `true` exactly when every
character of the input letters occurs in the course letters (so the empty
input always matches and any input letter missing from the course letters
— in particular any non-empty input against empty course letters — makes
it `false`); membership is by set, not order.  `background.js`'s
`checkLetterCompatibility` is the same function. -/
theorem C4_letter_subset_law (a b : Str) :
    (isLetterSubset a b = true ↔ ∀ c ∈ a, c ∈ b) ∧
    checkLetterCompatibility a b = isLetterSubset a b := by
  constructor
  · unfold isLetterSubset
    by_cases ha : a = []
    · subst ha; simp
    · rw [if_neg ha]
      by_cases hb : b = []
      · subst hb
        rw [if_pos rfl]
        constructor
        · intro h; cases h
        · intro h
          obtain ⟨c, hc⟩ := List.exists_mem_of_ne_nil a ha
          exact absurd (h c hc) (List.not_mem_nil c)
      · rw [if_neg hb]
        simp [List.all_eq_true]
  · rfl

/-- The catalog course `"CS 6"` used in concrete evaluations. -/
def courseCS6 : Course := .mk (str "CS 6") [] [] [] [] [] [] false []

/-- C10: number tokens are compared by exact string equality in the
matching rules — `checkNumberCompatibility` rejects any number group that
is not textually one of the two course numbers or their exact pair, and
`matchSingleCourseWithLetters` rejects any textually different number;
consequently the numerically equal `"CS 06"` does not match the course
`"CS 6"`. -/
theorem C10_number_tokens_exact :
    (∀ ins f s : Str, ins ≠ f → ins ≠ s → ins ≠ f ++ '/' :: s →
      checkNumberCompatibility ins f s = false) ∧
    (∀ oc v ip ino il cp cn cl : Str,
      mSingle v = some (ip, ino, il) → mSingle oc = some (cp, cn, cl) → ino ≠ cn →
      matchSingleCourseWithLetters oc v = false) ∧
    doesCourseMatch courseCS6 (generateCourseCodeVariations (str "CS 06")) = false := by
  refine ⟨?_, ?_, by decide⟩
  · intro ins f s h1 h2 h3
    unfold checkNumberCompatibility
    split
    · simp only [beq_eq_false_iff_ne, ne_eq]
      exact h3
    · simp only [Bool.or_eq_false_iff, beq_eq_false_iff_ne, ne_eq]
      exact ⟨h1, h2⟩
  · intro oc v ip ino il cp cn cl hv hoc hne
    unfold matchSingleCourseWithLetters
    rw [hv, hoc]
    have : (ino == cn) = false := beq_eq_false_iff_ne.mpr hne
    simp [this]

/-- Witness for C10 at the concrete input of the claim: `"06"` vs `"6"`
(cross-listed rule) and `"CS 06"` vs `"CS 6"` (single-course rule). -/
theorem C10_witness :
    checkNumberCompatibility (str "06") (str "6") (str "106") = false ∧
    matchSingleCourseWithLetters (str "CS 6") (str "CS 06") = false :=
  ⟨C10_number_tokens_exact.1 (str "06") (str "6") (str "106")
      (by decide) (by decide) (by decide),
   C10_number_tokens_exact.2.1 (str "CS 6") (str "CS 06")
      (str "CS") (str "06") [] (str "CS") (str "6") []
      (by decide) (by decide) (by decide)⟩

/-- C9 counterexample: the part_003 revision of the Code Variation
Generator returns the singleton list `[""]` — not the empty set — for the
empty-string input. -/
theorem C9_counterexample : generateCourseCodeVariations_v2 [] = [[]] := by decide

/-- C9 (amended): both revisions return a duplicate-free collection
containing the original input; the empty-string input yields the empty
set in the `background.js` revision, while the part_003 revision yields
`[""]` (so membership of the original still holds there). -/
theorem C9_variations_amended :
    (∀ s : Str, (generateCourseCodeVariations s).Nodup ∧
      (s ≠ [] → s ∈ generateCourseCodeVariations s)) ∧
    generateCourseCodeVariations [] = [] ∧
    (∀ s : Str, (generateCourseCodeVariations_v2 s).Nodup ∧
      s ∈ generateCourseCodeVariations_v2 s) := by
  refine ⟨?_, by decide, ?_⟩
  · intro s
    constructor
    · unfold generateCourseCodeVariations
      by_cases hs : s = []
      · rw [if_pos hs]; exact List.nodup_nil
      · rw [if_neg hs]
        exact (jsSetDedup_nodup _).filter _
    · intro hs
      unfold generateCourseCodeVariations
      rw [if_neg hs]
      refine List.mem_filter.mpr ⟨jsSetDedup_head_mem s _, ?_⟩
      simpa using hs
  · intro s
    exact ⟨jsSetDedup_nodup _, jsSetDedup_head_mem s _⟩

/-- Witness for C9 (amended) at the concrete input `"CS 1"`. -/
theorem C9_witness :
    str "CS 1" ∈ generateCourseCodeVariations (str "CS 1") ∧
    str "CS 1" ∈ generateCourseCodeVariations_v2 (str "CS 1") :=
  ⟨(C9_variations_amended.1 (str "CS 1")).2 (by decide),
   (C9_variations_amended.2.2 (str "CS 1")).2⟩

theorem filterMap_const_none {α β : Type} (l : List α) :
    l.filterMap (fun _ => (none : Option β)) = [] := by
  induction l with
  | nil => rfl
  | cons a rest ih => simp [List.filterMap_cons, ih]

theorem sectionCoursesFound_nil_catalog (d n l : Str) :
    sectionCoursesFound d n l [] = [] := by
  unfold sectionCoursesFound
  exact filterMap_const_none l

theorem sectionCoursesFound_v2_nil_catalog (d n l : Str) :
    sectionCoursesFound_v2 d n l [] = [] := by
  unfold sectionCoursesFound_v2
  exact filterMap_const_none l

theorem findSectionBasedMatch_nil_catalog (code : Str) :
    findSectionBasedMatch code [] = none := by
  unfold findSectionBasedMatch
  cases hp : matchSectionParse code with
  | none => rfl
  | some r =>
    obtain ⟨d, n, l⟩ := r
    dsimp only
    by_cases hl : l.length ≤ 1
    · rw [if_pos hl]
    · rw [if_neg hl]
      simp only [sectionCoursesFound_nil_catalog, List.length_nil]
      rw [if_neg (by omega)]

theorem findSectionBasedMatch_v2_nil_catalog (code : Str) :
    findSectionBasedMatch_v2 code [] = none := by
  unfold findSectionBasedMatch_v2
  cases hp : matchSectionParse code with
  | none => rfl
  | some r =>
    obtain ⟨d, n, l⟩ := r
    dsimp only
    by_cases hl : l.length ≤ 1
    · rw [if_pos hl]
    · rw [if_neg hl]
      simp only [sectionCoursesFound_v2_nil_catalog, List.length_nil]
      rw [if_neg (by omega)]

/-- C8 counterexample: the part_003 revision of `findCourseInCatalog`
throws (`TypeError` from `courses.find` on a non-array value, modelled as
`Except.error`) instead of returning the empty result. -/
theorem C8_counterexample :
    findCourseInCatalog_v2 (str "CS 1") CatalogValue.nonList = Except.error () := rfl

/-- C8 (amended): `background.js`'s `findCourseInCatalog` returns `null`
for a non-list catalog and for an empty catalog without throwing (it is a
total function); the part_003 revision returns `null` for an empty
catalog but throws on a non-list catalog. -/
theorem C8_degrades_amended :
    (∀ code : Str, findCourseInCatalog code CatalogValue.nonList = none) ∧
    (∀ code : Str, findCourseInCatalog code (CatalogValue.arr []) = none) ∧
    (∀ code : Str, findCourseInCatalog_v2 code (CatalogValue.arr []) = Except.ok none) := by
  refine ⟨fun code => rfl, ?_, ?_⟩
  · intro code
    unfold findCourseInCatalog
    dsimp only
    by_cases hc : code = []
    · rw [if_pos hc]
    · rw [if_neg hc]
      simp only [List.find?_nil]
      exact findSectionBasedMatch_nil_catalog code
  · intro code
    unfold findCourseInCatalog_v2
    dsimp only
    simp only [List.find?_nil]
    rw [findSectionBasedMatch_v2_nil_catalog]

/-- The catalog courses used in concrete multi-section evaluations. -/
def ec121aCourse : Course :=
  .mk (str "EC 121 a") (str "Theory of Value I") [] [] [] [] [] false []

def ec121bCourse : Course :=
  .mk (str "EC 121 b") (str "Theory of Value II") [] [] [] [] [] false []

/-- C7 counterexample: for the code `"EC 121 aa"` against a catalog
holding only `"EC 121 a"`, only one distinct section Course exists, yet
`findSectionBasedMatch` synthesizes a Course (with the same section
listed twice) instead of returning `null`. -/
theorem C7_counterexample :
    (findSectionBasedMatch (str "EC 121 aa") [ec121aCourse]).isSome = true ∧
    ((findSectionBasedMatch (str "EC 121 aa") [ec121aCourse]).map
      (fun c => c.sections.map Course.code)).getD [] =
      [str "EC 121 a", str "EC 121 a"] := by decide

/-- C7 (amended): when `code` parses as `<prefix> <number> <letters>`, the
composer returns `null` if the letters part has at most one character or
fewer than two section Courses are found (counted with multiplicity, not
distinctness), and otherwise returns a record with `originalCode = code`,
`isSynthetic = true`, the four `"See individual sections"` fields, and
`sectionCourses` equal to the found sections in letter order. -/
theorem C7_composer_amended (code : Str) (cs : List Course) (d n l : Str)
    (hp : matchSectionParse code = some (d, n, l)) :
    (l.length ≤ 1 → findSectionBasedMatch code cs = none) ∧
    (¬ l.length ≤ 1 → (sectionCoursesFound d n l cs).length < 2 →
      findSectionBasedMatch code cs = none) ∧
    (¬ l.length ≤ 1 → 2 ≤ (sectionCoursesFound d n l cs).length →
      ∃ c, findSectionBasedMatch code cs = some c ∧
        c.code = code ∧ c.synthetic = true ∧
        c.units = str "See individual sections" ∧
        c.terms = str "See individual sections" ∧
        c.prereqs = str "See individual sections" ∧
        c.instrs = str "See individual sections" ∧
        c.sections = sectionCoursesFound d n l cs) := by
  unfold findSectionBasedMatch
  rw [hp]
  dsimp only
  refine ⟨?_, ?_, ?_⟩
  · intro h; rw [if_pos h]
  · intro h hlt
    rw [if_neg h]
    exact if_neg (by omega)
  · intro h hge
    rw [if_neg h]
    rw [if_pos hge]
    exact ⟨_, rfl, rfl, rfl, rfl, rfl, rfl, rfl, rfl⟩

/-- Witness for C7 (amended): `"EC 121 ab"` against a catalog holding
`"EC 121 a"` and `"EC 121 b"` produces a synthetic Course. -/
theorem C7_witness :
    (findSectionBasedMatch (str "EC 121 ab") [ec121aCourse, ec121bCourse]).isSome = true := by
  obtain ⟨c, hc, -⟩ :=
    (C7_composer_amended (str "EC 121 ab") [ec121aCourse, ec121bCourse]
      (str "EC") (str "121") (str "ab") (by decide)).2.2 (by decide) (by decide)
  rw [hc]; rfl

/-- C6: every Range Candidate the scanner emits satisfies
`startNum < endNum` and `endNum - startNum ≤ 20`, and its generated code
list is exactly `"<prefix> <n>"` for `n` from `startNum` to `endNum`
inclusive, ascending. -/
theorem C6_range_bound (t : Str) :
    ∀ m ∈ detectRangeCourses t,
      m.isRange = true ∧ m.startNum < m.endNum ∧ m.endNum - m.startNum ≤ 20 ∧
      m.rangeCourses = (List.range' m.startNum (m.endNum - m.startNum + 1)).map
        (fun num => m.department ++ ' ' :: natToStr num) := by
  unfold detectRangeCourses
  generalize (0 : Nat) = pos
  generalize (t.length + 1) = fuel
  induction fuel generalizing pos with
  | zero => intro m h; cases h
  | succ f ih =>
    intro m h
    rw [detectRangeGo.eq_def] at h
    simp only at h
    cases hscan : scanFrom (matchRngAt t) (t.length + 1 - pos) pos with
    | none => rw [hscan] at h; cases h
    | some m0 =>
      rw [hscan] at h
      dsimp only at h
      split at h
      · exact ih _ m h
      · rcases List.mem_cons.mp h with rfl | h2
        · rename_i hcond
          simp only [Bool.or_eq_true, decide_eq_true_eq, not_or] at hcond
          dsimp only
          refine ⟨rfl, by omega, by omega, rfl⟩
        · exact ih _ m h2

/-- Witness for C6: the candidate detected in `"EC 120-122"`. -/
theorem C6_witness :
    ((detectRangeCourses (str "EC 120-122")).headI).isRange = true ∧
    ((detectRangeCourses (str "EC 120-122")).headI).startNum <
      ((detectRangeCourses (str "EC 120-122")).headI).endNum ∧
    ((detectRangeCourses (str "EC 120-122")).headI).endNum -
      ((detectRangeCourses (str "EC 120-122")).headI).startNum ≤ 20 ∧
    ((detectRangeCourses (str "EC 120-122")).headI).rangeCourses =
      (List.range' ((detectRangeCourses (str "EC 120-122")).headI).startNum
        (((detectRangeCourses (str "EC 120-122")).headI).endNum -
          ((detectRangeCourses (str "EC 120-122")).headI).startNum + 1)).map
        (fun num => ((detectRangeCourses (str "EC 120-122")).headI).department ++
          ' ' :: natToStr num) :=
  C6_range_bound (str "EC 120-122") ((detectRangeCourses (str "EC 120-122")).headI)
    (by decide)

/-- The catalog course `"ABC 1"` used for the C5 counterexample. -/
def courseABC1 : Course := .mk (str "ABC 1") [] [] [] [] [] [] false []

/-- C5 counterexample: the variant `"AB/C 1"` parses into prefix/number
form with prefix tokens `AB` and `C`, and `AB` is absent from the prefix
list of the course `"ABC 1"`, yet `matches(course, [v])` returns `true` —
the direct separator-normalizing equality rule accepts it
(`"AB/C 1"` and `"ABC 1"` both normalize to `"ABC1"`). -/
theorem C5_counterexample :
    doesCourseMatch courseABC1 [str "AB/C 1"] = true ∧
    mInputComplex (toUpperStr (jsTrim (str "AB/C 1"))) =
      some (str "AB/C", str "1", []) ∧
    str "AB" ∈ jsSplit '/' (str "AB/C") ∧
    (jsSplit '/' (toUpperStr (jsTrim (str "ABC 1")))).all
      (fun part => !(str "AB" == jsTrim part)) = true := by decide

/-- C5 (amended): the prefix-subset requirement holds for every match
established through the structured rules — the complex cross-listed rule,
the simple cross-listed rule (each via `checkPrefixCompatibility`), and
the plain single-department rule (prefix equality) — but not for the
whole-string normalization equalities (the direct rule and the fallback
slash-splitting rule), which can accept a variant whose prefix
tokenization differs from the course's prefix list. -/
theorem C5_prefix_law_amended :
    (∀ oc v cp n1 n2 cl ip ins il : Str,
      mCourseComplex oc = some (cp, n1, n2, cl) →
      mInputComplex v = some (ip, ins, il) →
      complexBranch oc v = true →
      ∀ p ∈ jsSplit '/' ip, jsTrim p ∈ jsSplit '/' cp) ∧
    (∀ oc v cp cn cl ip ino il : Str,
      mCourseSimple oc = some (cp, cn, cl) →
      mInputSimple v = some (ip, ino, il) →
      simpleBranch oc v = true →
      ∀ p ∈ jsSplit '/' ip, jsTrim p ∈ jsSplit '/' cp) ∧
    (∀ oc v ip ino il cp cn cl : Str,
      mSingle v = some (ip, ino, il) → mSingle oc = some (cp, cn, cl) →
      matchSingleCourseWithLetters oc v = true → ip = cp) := by
  refine ⟨?_, ?_, ?_⟩
  · intro oc v cp n1 n2 cl ip ins il hc hv hb p hp
    unfold complexBranch at hb
    rw [hc, hv] at hb
    simp only [Bool.and_eq_true] at hb
    have hpc := hb.1.1
    unfold checkPrefixCompatibility at hpc
    have := (List.all_eq_true.mp hpc) p hp
    simpa using this
  · intro oc v cp cn cl ip ino il hc hv hb p hp
    unfold simpleBranch at hb
    rw [hc, hv] at hb
    simp only [Bool.and_eq_true] at hb
    have hpc := hb.1.1
    unfold checkPrefixCompatibility at hpc
    have := (List.all_eq_true.mp hpc) p hp
    simpa using this
  · intro oc v ip ino il cp cn cl hv hoc hb
    unfold matchSingleCourseWithLetters at hb
    rw [hv, hoc] at hb
    simp only [Bool.and_eq_true, beq_iff_eq] at hb
    exact hb.1.1

/-- Witness for C5 (amended): `"CS 6"` matches the cross-listed course
`"MA/CS 6/106 ABC"` through the complex rule, and its prefix token `CS`
is indeed in the course's prefix list. -/
theorem C5_witness :
    str "CS" ∈ jsSplit '/' (str "MA/CS") :=
  C5_prefix_law_amended.1 (str "MA/CS 6/106 ABC") (str "CS 6")
    (str "MA/CS") (str "6") (str "106") (str "ABC") (str "CS") (str "6") []
    (by decide) (by decide) (by decide) (str "CS") (by decide)

/-- C1 counterexample: the part_001 scanner expands the Phase-3 match
`"APh/EE 23/24"` into two Candidates although nothing resolves in an
empty catalog — neither the full compound code nor any individual code —
because its `expandCompoundCourseCode` decides by numeric proximity
(`|24 − 23| ≤ 5`) without consulting the catalog. -/
theorem C1_counterexample :
    detectCourseInText_v1 (str "APh/EE 23/24") =
      [{ fullMatch := str "APh/EE 23", index := 0, length := 9,
         prefixes := str "APh/EE", numbers := str "23", letters := [],
         isExpanded := true, originalMatch := str "APh/EE 23/24" },
       { fullMatch := str "APh/EE 24", index := 9, length := 3,
         prefixes := str "APh/EE", numbers := str "24", letters := [],
         isExpanded := true, originalMatch := str "APh/EE 23/24",
         displayText := some (str "/24") }] ∧
    (findCourseInCatalog (str "APh/EE 23/24") (CatalogValue.arr [])).isNone = true ∧
    (findCourseInCatalog (str "APh/EE 23") (CatalogValue.arr [])).isNone = true ∧
    (findCourseInCatalog (str "APh/EE 24") (CatalogValue.arr [])).isNone = true := by
  decide

/-- C1 (amended): in the catalog-driven scanner revision (part_000, also
part_002), when the number group of a Phase-3 match contains `/` and
neither the full compound code nor some individual code resolves, the
expansion step returns exactly one unexpanded Candidate covering the
whole matched span.  The part_001 revision instead expands by the numeric
proximity heuristic without consulting the catalog. -/
theorem C1_compound_safe_default (find : Str → Option Course) (fullMatch : Str)
    (baseIndex : Nat) (prefixes numbers letters : Str)
    (hslash : '/' ∈ numbers)
    (hfull : (find (jsTrim (prefixes ++ ' ' :: (numbers ++ letters)))).isNone = true)
    (hsome : ∃ p ∈ jsSplit '/' numbers,
      (find (jsTrim (prefixes ++ ' ' :: (p ++ letters)))).isNone = true) :
    expandCompoundCourseCode find fullMatch baseIndex prefixes numbers letters =
      [singleCandOf fullMatch baseIndex prefixes numbers letters] ∧
    (singleCandOf fullMatch baseIndex prefixes numbers letters).index = baseIndex ∧
    (singleCandOf fullMatch baseIndex prefixes numbers letters).length =
      fullMatch.length ∧
    (singleCandOf fullMatch baseIndex prefixes numbers letters).isExpanded = false := by
  refine ⟨?_, rfl, rfl, rfl⟩
  unfold expandCompoundCourseCode
  have hlen := jsSplit_length_ge_two '/' numbers hslash
  rw [if_neg (by omega)]
  cases hf : find (jsTrim (prefixes ++ ' ' :: (numbers ++ letters))) with
  | some c => rw [hf] at hfull; simp at hfull
  | none =>
    simp only [hf]
    have hflag : (individualScan find prefixes letters (jsSplit '/' numbers)).2 = false := by
      rw [individualScan_snd]
      obtain ⟨p, hp, hnone⟩ := hsome
      refine List.all_eq_false.mpr ⟨p, hp, ?_⟩
      simp only [Option.isNone_iff_eq_none] at hnone
      simp [hnone]
    rw [hflag]
    simp

/-- Witness for C1 (amended) at the concrete match `"APh/EE 23/24"` and
the empty resolver. -/
theorem C1_witness :
    expandCompoundCourseCode (fun _ => none) (str "APh/EE 23/24") 0
        (str "APh/EE") (str "23/24") [] =
      [singleCandOf (str "APh/EE 23/24") 0 (str "APh/EE") (str "23/24") []] :=
  (C1_compound_safe_default (fun _ => none) (str "APh/EE 23/24") 0
    (str "APh/EE") (str "23/24") [] (by decide) (by decide)
    ⟨str "23", by decide, by decide⟩).1

/-- The catalog course `"EC 120"` used in the orchestrator counterexamples. -/
def ec120Course : Course := .mk (str "EC 120") [] [] [] [] [] [] false []

/-- Two validated matches with disjoint `[startOffset, startOffset+length)`
intervals (the non-overlap relation of the spec). -/
def validSpansDisjoint (a b : Valid) : Prop :=
  a.cand.index + a.cand.length ≤ b.cand.index ∨
  b.cand.index + b.cand.length ≤ a.cand.index

instance : DecidableRel validSpansDisjoint := fun a b => by
  unfold validSpansDisjoint; infer_instance

/-- C3 counterexample: on the text `"EC 120 - 122"` with a catalog
containing `"EC 120"`, the final ValidatedMatch list holds the Phase-1
range match spanning `[0, 12)` and a Phase-3 match `"EC 120"` spanning
`[0, 6)` — two overlapping entries (the part_000 Phase-3 loop only
suppresses overlap with Phase-2 shorthand spans, not Phase-1 range
spans). -/
theorem C3_counterexample :
    (processTextNode (fun s => findCourseInCatalog s (.arr [ec120Course]))
        (str "EC 120 - 122")).map (fun v => (v.cand.index, v.cand.length)) =
      [(0, 12), (0, 6)] ∧
    ¬ (processTextNode (fun s => findCourseInCatalog s (.arr [ec120Course]))
        (str "EC 120 - 122")).Pairwise validSpansDisjoint := by
  constructor
  · decide
  · decide

instance : IsTotal Valid (fun a b => a.cand.index ≤ b.cand.index) :=
  ⟨fun _a _b => Nat.le_total _ _⟩

instance : IsTrans Valid (fun a b => a.cand.index ≤ b.cand.index) :=
  ⟨fun _ _ _ => Nat.le_trans⟩

/-- C3 (amended): the final ValidatedMatch list produced for one text
unit is sorted by `startOffset` ascending.  (The non-overlap half of the
claim fails: a Phase-3 candidate may overlap a Phase-1 range span, see
the counterexample.) -/
theorem C3_sorted_amended (find : Str → Option Course) (t : Str) :
    List.Sorted (fun a b : Valid => a.cand.index ≤ b.cand.index)
      (processTextNode find t) := by
  unfold processTextNode
  exact List.sorted_insertionSort _ _

/-! ## Matcher soundness

What a successful combinator run says about the consumed positions and
characters; used to prove the Phase-2/Phase-3 span-disjointness claim. -/

theorem tryDesc_sound {R : Type} (k : Nat → Option R) (i minN : Nat) :
    ∀ c r, tryDesc k i minN c = some r →
      ∃ d, minN ≤ d ∧ d ≤ c ∧ k (i + d) = some r := by
  intro c
  induction c with
  | zero =>
    intro r h
    unfold tryDesc at h
    split at h
    · exact ⟨0, by omega, le_refl 0, by simpa using h⟩
    · cases h
  | succ c ih =>
    intro r h
    unfold tryDesc at h
    split at h
    · cases h
    · rename_i hge
      cases hk : k (i + (c + 1)) with
      | some r2 =>
        rw [hk] at h
        cases h
        exact ⟨c + 1, by omega, le_refl _, hk⟩
      | none =>
        rw [hk] at h
        obtain ⟨d, h1, h2, h3⟩ := ih r h
        exact ⟨d, h1, by omega, h3⟩

theorem take_takeWhile_all {p : Char → Bool} (l : Str) (d : Nat)
    (h : d ≤ (l.takeWhile p).length) : ∀ c ∈ l.take d, p c = true := by
  intro c hc
  have heq : l.take d = (l.takeWhile p).take d := by
    conv_lhs => rw [← List.takeWhile_append_dropWhile (p := p) (l := l)]
    rw [List.take_append_of_le_length h]
  rw [heq] at hc
  exact List.mem_takeWhile_imp (List.mem_of_mem_take hc)

theorem repCls_sound {R : Type} (t : Str) (p : Char → Bool) (minN : Nat)
    (maxN : Option Nat) (i : Nat) (k : Nat → Option R) (r : R)
    (h : repCls t p minN maxN i k = some r) :
    ∃ d, minN ≤ d ∧ d ≤ ((t.drop i).takeWhile p).length ∧
      (∀ c ∈ (t.drop i).take d, p c = true) ∧ k (i + d) = some r := by
  unfold repCls at h
  obtain ⟨d, h1, h2, h3⟩ := tryDesc_sound k i minN _ r h
  have hrun : d ≤ ((t.drop i).takeWhile p).length := by
    cases maxN with
    | none => simpa using h2
    | some mx => simp only at h2; omega
  exact ⟨d, h1, hrun, take_takeWhile_all _ d hrun, h3⟩

/-- A repetition's end position stays inside the text (or the start was
already past the end and nothing was consumed). -/
theorem repCls_pos_bound (t : Str) (i d : Nat)
    (h : d ≤ ((t.drop i).takeWhile (p := p)).length) : i + d ≤ t.length ∨ d = 0 := by
  have h2 : ((t.drop i).takeWhile p).length ≤ t.length - i := by
    calc ((t.drop i).takeWhile p).length ≤ (t.drop i).length :=
          List.Sublist.length_le (List.takeWhile_sublist p)
      _ = t.length - i := List.length_drop i t
  omega

theorem chrTok_sound {R : Type} (t : Str) (c : Char) (i : Nat) (k : Nat → Option R)
    (r : R) (h : chrTok t c i k = some r) :
    t[i]? = some c ∧ i < t.length ∧ k (i + 1) = some r := by
  unfold chrTok at h
  split at h
  · rename_i hc
    refine ⟨hc, ?_, h⟩
    by_contra hlen
    rw [List.getElem?_eq_none (by omega)] at hc
    cases hc
  · cases h

theorem litTok_sound {R : Type} (t lit : Str) (i : Nat) (k : Nat → Option R)
    (r : R) (h : litTok t lit i k = some r) :
    lit <+: t.drop i ∧ lit.length ≤ t.length - i ∧ k (i + lit.length) = some r := by
  unfold litTok at h
  split at h
  · rename_i hpre
    have hp : lit <+: t.drop i := by
      exact (List.isPrefixOf_iff_prefix).mp hpre
    refine ⟨hp, ?_, h⟩
    calc lit.length ≤ (t.drop i).length := hp.length_le
      _ = t.length - i := List.length_drop i t
  · cases h

theorem scanFrom_sound {M : Type} (matchAt : Nat → Option M) :
    ∀ fuel pos m, scanFrom matchAt fuel pos = some m →
      ∃ j, pos ≤ j ∧ matchAt j = some m := by
  intro fuel
  induction fuel with
  | zero => intro pos m h; cases h
  | succ f ih =>
    intro pos m h
    unfold scanFrom at h
    cases hm : matchAt pos with
    | some m2 => rw [hm] at h; cases h; exact ⟨pos, le_refl _, hm⟩
    | none =>
      rw [hm] at h
      obtain ⟨j, h1, h2⟩ := ih (pos + 1) m h
      exact ⟨j, by omega, h2⟩

theorem starGrp_sound {R : Type} (body : Nat → (Nat → Option R) → Option R)
    (P : Nat → Nat → Prop)
    (hbody : ∀ i k r, body i k = some r → ∃ j, P i j ∧ k j = some r) :
    ∀ fuel i k r, starGrp body fuel i k = some r →
      ∃ j, Relation.ReflTransGen P i j ∧ k j = some r := by
  intro fuel
  induction fuel with
  | zero => intro i k r h; exact ⟨i, Relation.ReflTransGen.refl, h⟩
  | succ f ih =>
    intro i k r h
    unfold starGrp at h
    cases hb : body i (fun j => starGrp body f j k) with
    | some r2 =>
      rw [hb] at h
      cases h
      obtain ⟨j, hPij, hk⟩ := hbody i _ r hb
      obtain ⟨j2, hstar, hk2⟩ := ih j k r hk
      exact ⟨j2, Relation.ReflTransGen.head hPij hstar, hk2⟩
    | none =>
      rw [hb] at h
      exact ⟨i, Relation.ReflTransGen.refl, h⟩

/-- A successful `\b` assertion can only sit at a position of the text
(at most one past the last character). -/
theorem wbAt_le_length (t : Str) (i : Nat) (h : wbAt t i = true) : i ≤ t.length := by
  by_contra hx
  push_neg at hx
  have h1 : isWordAt t i = false := by
    unfold isWordAt
    rw [List.getElem?_eq_none (by omega)]
  cases i with
  | zero => omega
  | succ j =>
    have h2 : isWordAt t j = false := by
      unfold isWordAt
      rw [List.getElem?_eq_none (by omega)]
    have h3 : (isWordAt t j != isWordAt t (j + 1)) = true := h
    rw [h1, h2] at h3
    simp at h3

/-- One `(?:\/[A-Za-z][a-zA-Z]{1,4})`-style iteration: the position moves
strictly right and stays inside the text. -/
def alphaStarStep (t : Str) (a b : Nat) : Prop := a < b ∧ b ≤ t.length

/-- One `(?:\/\d{1,3})` iteration: the consumed text is a `/` followed by
a non-empty digit group. -/
def numStarStep (t : Str) (a b : Nat) : Prop :=
  a < b ∧ b ≤ t.length ∧
  ∃ d, d ≠ [] ∧ (∀ c ∈ d, isDigitC c = true) ∧ seg t a b = '/' :: d

/-- The text consumed by the `(?:\/\d{1,3})*` star: a concatenation of
`/`-plus-digit-group chunks. -/
inductive NumTail : Str → Prop
  | nil : NumTail []
  | cons (d rest : Str) : d ≠ [] → (∀ c ∈ d, isDigitC c = true) → NumTail rest →
      NumTail ('/' :: (d ++ rest))

/-- The shape of a `\d{1,3}(?:\/\d{1,3})*` capture: a non-empty digit
group followed by a `NumTail`. -/
def NumsShape (l : Str) : Prop :=
  ∃ d0 rest, d0 ≠ [] ∧ (∀ c ∈ d0, isDigitC c = true) ∧ NumTail rest ∧ l = d0 ++ rest

theorem seg_append (t : Str) (a b c : Nat) (hab : a ≤ b) (hbc : b ≤ c) :
    seg t a c = seg t a b ++ seg t b c := by
  unfold seg
  have h1 : c - a = (b - a) + (c - b) := by omega
  rw [h1, List.take_add]
  congr 1
  have h2 : (t.drop a).drop (b - a) = t.drop b := by
    rw [List.drop_drop]
    congr 1
    omega
  rw [h2]

theorem seg_self (t : Str) (a : Nat) : seg t a a = [] := by
  unfold seg
  simp

theorem seg_length (t : Str) (a b : Nat) (hb : b ≤ t.length) :
    (seg t a b).length = b - a := by
  unfold seg
  rw [List.length_take, List.length_drop]
  omega

theorem alphaStar_bounds (t : Str) (a b : Nat)
    (h : Relation.ReflTransGen (alphaStarStep t) a b) :
    a ≤ b ∧ (b ≤ t.length ∨ b = a) := by
  induction h with
  | refl => exact ⟨le_refl _, Or.inr rfl⟩
  | tail _ hstep ih =>
    obtain ⟨h1, h2⟩ := hstep
    exact ⟨by omega, Or.inl h2⟩

theorem numStar_bounds (t : Str) (a b : Nat)
    (h : Relation.ReflTransGen (numStarStep t) a b) :
    a ≤ b ∧ (b ≤ t.length ∨ b = a) ∧ NumTail (seg t a b) := by
  induction h using Relation.ReflTransGen.head_induction_on with
  | refl => exact ⟨le_refl _, Or.inr rfl, seg_self t b ▸ NumTail.nil⟩
  | head hstep _ ih =>
    rename_i a' m hstar
    obtain ⟨h1, h2, d, hd1, hd2, hd3⟩ := hstep
    obtain ⟨ih1, ih2, ih3⟩ := ih
    refine ⟨by omega, ?_, ?_⟩
    · rcases ih2 with h3 | h3
      · exact Or.inl h3
      · exact Or.inl (h3 ▸ h2)
    · rw [seg_append t a' m b (by omega) ih1, hd3]
      have : ('/' :: d) ++ seg t m b = '/' :: (d ++ seg t m b) := by simp
      rw [this]
      exact NumTail.cons d (seg t m b) hd1 hd2 ih3

theorem slashDigitBody_sound {R : Type} (t : Str) (i : Nat) (k : Nat → Option R) (r : R)
    (h : chrTok t '/' i (fun j2 => repCls t isDigitC 1 (some 3) j2 k) = some r) :
    ∃ j, numStarStep t i j ∧ k j = some r := by
  obtain ⟨hc, hlt, hk⟩ := chrTok_sound t '/' i _ r h
  obtain ⟨d, h1, h2, h3, h4⟩ := repCls_sound t isDigitC 1 (some 3) (i + 1) k r hk
  have hbound := repCls_pos_bound t (i + 1) d h2
  have hle : i + 1 + d ≤ t.length := by omega
  refine ⟨i + 1 + d, ⟨by omega, hle, (t.drop (i + 1)).take d, ?_, h3, ?_⟩, h4⟩
  · have hlen : ((t.drop (i + 1)).take d).length = d := by
      rw [List.length_take, List.length_drop]
      omega
    intro hnil
    rw [hnil] at hlen
    simp at hlen
    omega
  · unfold seg
    have hdrop : t.drop i = '/' :: t.drop (i + 1) := by
      rw [List.drop_eq_getElem_cons hlt]
      congr 1
      have := List.getElem?_eq_getElem hlt
      rw [this] at hc
      exact Option.some.inj hc
    have harith : i + 1 + d - i = d + 1 := by omega
    rw [harith, hdrop, List.take_succ_cons]

theorem slashAlphaBody_sound {R : Type} (t : Str) (i : Nat) (k : Nat → Option R) (r : R)
    (h : chrTok t '/' i (fun j2 => repCls t isAlphaC 1 (some 4) j2 k) = some r) :
    ∃ j, alphaStarStep t i j ∧ k j = some r := by
  obtain ⟨hc, hlt, hk⟩ := chrTok_sound t '/' i _ r h
  obtain ⟨d, h1, h2, h3, h4⟩ := repCls_sound t isAlphaC 1 (some 4) (i + 1) k r hk
  have hbound := repCls_pos_bound t (i + 1) d h2
  exact ⟨i + 1 + d, ⟨by omega, by omega⟩, h4⟩

/-- What a successful Phase-3 fallback-pattern match says: the capture
boundaries are ordered and inside the text, the number group has the
`\d{1,3}(?:\/\d{1,3})*` shape, and the letters capture is alphabetic. -/
theorem matchP3v0At_sound (t : Str) (i : Nat) (m : P3)
    (h : matchP3v0At t i = some m) :
    m.index = i ∧ m.index ≤ m.pfxE ∧ m.pfxE ≤ m.numS ∧ m.numS < m.numE ∧
    m.numE ≤ m.letS ∧ m.letS ≤ m.letE ∧ m.letE ≤ t.length ∧
    NumsShape (seg t m.numS m.numE) ∧
    (∀ c ∈ seg t m.letS m.letE, isAlphaC c = true) := by
  unfold matchP3v0At at h
  split at h
  case isFalse => cases h
  case isTrue hwb =>
  have hi : i ≤ t.length := wbAt_le_length t i hwb
  obtain ⟨d1, hd1a, hd1b, hchars1, h1⟩ := repCls_sound t isAlphaC 2 (some 5) i _ m h
  have he1 : i + d1 ≤ t.length := by
    have := repCls_pos_bound t i d1 hd1b
    omega
  obtain ⟨p, hstar1, h2⟩ :=
    starGrp_sound _ (alphaStarStep t) (fun a k r hb => slashAlphaBody_sound t a k r hb)
      (t.length + 1) (i + d1) _ m h1
  have hp : i + d1 ≤ p ∧ p ≤ t.length := by
    have := alphaStar_bounds t (i + d1) p hstar1
    rcases this.2 with h3 | h3
    · exact ⟨this.1, h3⟩
    · exact ⟨this.1, h3 ▸ he1⟩
  obtain ⟨dw, _, hdwb, _, h3⟩ := repCls_sound t isWsC 0 none p _ m h2
  have hnS : p + dw ≤ t.length := by
    have := repCls_pos_bound t p dw hdwb
    omega
  obtain ⟨dd, hdda, hddb, hcharsD, h4⟩ := repCls_sound t isDigitC 1 (some 3) (p + dw) _ m h3
  have hdI : p + dw + dd ≤ t.length := by
    have := repCls_pos_bound t (p + dw) dd hddb
    omega
  obtain ⟨nE, hstar2, h5⟩ :=
    starGrp_sound _ (numStarStep t) (fun a k r hb => slashDigitBody_sound t a k r hb)
      (t.length + 1) (p + dw + dd) _ m h4
  obtain ⟨hnEa, hnEb, hnumTail⟩ := numStar_bounds t (p + dw + dd) nE hstar2
  have hnE : nE ≤ t.length := by
    rcases hnEb with h6 | h6
    · exact h6
    · exact h6 ▸ hdI
  obtain ⟨dw2, _, hdw2b, _, h6⟩ := repCls_sound t isWsC 0 none nE _ m h5
  have hlS : nE + dw2 ≤ t.length := by
    have := repCls_pos_bound t nE dw2 hdw2b
    omega
  obtain ⟨dl, _, hdlb, hcharsL, h7⟩ := repCls_sound t isAlphaC 0 (some 3) (nE + dw2) _ m h6
  have hlE : nE + dw2 + dl ≤ t.length := by
    have := repCls_pos_bound t (nE + dw2) dl hdlb
    omega
  split at h7
  case isFalse => cases h7
  case isTrue hlook =>
  have hm := Option.some.inj h7
  subst hm
  refine ⟨rfl, by show i ≤ p; omega, by show p ≤ p + dw; omega,
    by show p + dw < nE; omega, by show nE ≤ nE + dw2; omega,
    by show nE + dw2 ≤ nE + dw2 + dl; omega, hlE, ?_, ?_⟩
  · -- NumsShape of the numbers capture
    refine ⟨(t.drop (p + dw)).take dd, seg t (p + dw + dd) nE, ?_, hcharsD, hnumTail, ?_⟩
    · have hlen : ((t.drop (p + dw)).take dd).length = dd := by
        rw [List.length_take, List.length_drop]
        omega
      intro hnil
      rw [hnil] at hlen
      simp at hlen
      omega
    · have hseg1 : seg t (p + dw) (p + dw + dd) = (t.drop (p + dw)).take dd := by
        unfold seg
        congr 1
        omega
      rw [← hseg1]
      exact seg_append t (p + dw) (p + dw + dd) nE (by omega) hnEa
  · have hseg2 : seg t (nE + dw2) (nE + dw2 + dl) = (t.drop (nE + dw2)).take dl := by
      unfold seg
      congr 1
      omega
    rw [hseg2]
    exact hcharsL

theorem jsSplit_cons_sep (sep : Char) (l : Str) :
    jsSplit sep (sep :: l) = [] :: jsSplit sep l := by
  obtain ⟨h, t, ht⟩ := List.exists_cons_of_ne_nil (jsSplit_ne_nil sep l)
  simp [jsSplit, ht]

theorem jsSplit_cons_ne (sep c : Char) (l : Str) (hc : c ≠ sep) :
    jsSplit sep (c :: l) = (c :: (jsSplit sep l).headI) :: (jsSplit sep l).tail := by
  obtain ⟨h, t, ht⟩ := List.exists_cons_of_ne_nil (jsSplit_ne_nil sep l)
  simp [jsSplit, ht, hc]

theorem jsSplit_sepFree_append (sep : Char) (d l : Str) (hd : ∀ c ∈ d, c ≠ sep) :
    jsSplit sep (d ++ l) = (d ++ (jsSplit sep l).headI) :: (jsSplit sep l).tail := by
  induction d with
  | nil =>
    obtain ⟨h, t, ht⟩ := List.exists_cons_of_ne_nil (jsSplit_ne_nil sep l)
    simp [ht]
  | cons c d ih =>
    have hc : c ≠ sep := hd c (List.mem_cons_self c d)
    rw [List.cons_append, jsSplit_cons_ne sep c _ hc,
      ih (fun x hx => hd x (List.mem_cons_of_mem c hx))]
    simp

theorem digit_ne_slash (c : Char) (h : isDigitC c = true) : c ≠ '/' := by
  intro hc
  subst hc
  exact absurd h (by decide)

theorem jsSplit_numTail (rest : Str) (h : NumTail rest) :
    (jsSplit '/' rest).headI = [] ∧
    ∀ q ∈ (jsSplit '/' rest).tail, q ≠ [] ∧ (∀ c ∈ q, isDigitC c = true) := by
  induction h with
  | nil => simp [jsSplit]
  | cons d rest2 hd1 hd2 _ ih =>
    rw [jsSplit_cons_sep,
      jsSplit_sepFree_append '/' d rest2 (fun c hc => digit_ne_slash c (hd2 c hc)),
      ih.1]
    refine ⟨by simp, ?_⟩
    intro q hq
    simp only [List.tail_cons] at hq
    rcases List.mem_cons.mp hq with rfl | hq2
    · simpa [hd1] using hd2
    · exact ih.2 q hq2

theorem jsSplit_of_numsShape (nums : Str) (h : NumsShape nums) :
    ∃ d0 parts, jsSplit '/' nums = d0 :: parts ∧ d0 ≠ [] ∧
      (∀ c ∈ d0, isDigitC c = true) ∧ d0.length ≤ nums.length ∧
      ∀ q ∈ parts, q ≠ [] ∧ (∀ c ∈ q, isDigitC c = true) := by
  obtain ⟨d0, rest, h1, h2, h3, rfl⟩ := h
  rw [jsSplit_sepFree_append '/' d0 rest (fun c hc => digit_ne_slash c (h2 c hc))]
  obtain ⟨hhead, htail⟩ := jsSplit_numTail rest h3
  rw [hhead]
  refine ⟨d0 ++ [], _, rfl, by simp [h1], by simpa using h2, by simp, htail⟩

theorem jsIndexOfCore_sound (pat : Str) :
    ∀ s n, jsIndexOfCore pat s = some n →
      n + pat.length ≤ s.length ∧ (s.drop n).take pat.length = pat := by
  intro s
  induction s with
  | nil =>
    intro n h
    unfold jsIndexOfCore at h
    split at h
    · rename_i hp
      cases h
      subst hp
      simp
    · cases h
  | cons c rest ih =>
    intro n h
    unfold jsIndexOfCore at h
    split at h
    · rename_i hp
      cases h
      have hpre : pat <+: (c :: rest) := List.isPrefixOf_iff_prefix.mp hp
      refine ⟨by simpa using hpre.length_le, ?_⟩
      simpa using (List.prefix_iff_eq_take.mp hpre).symm
    · cases hc : jsIndexOfCore pat rest with
      | none => rw [hc] at h; cases h
      | some n2 =>
        rw [hc] at h
        cases h
        obtain ⟨h1, h2⟩ := ih n2 hc
        refine ⟨by simp only [List.length_cons]; omega, ?_⟩
        rw [List.drop_succ_cons]
        exact h2

theorem jsIndexOfFrom_sound (s pat : Str) (frm : Int) (hne : pat ≠ [])
    (hr : jsIndexOfFrom s pat frm ≠ -1) :
    ∃ rn : Nat, jsIndexOfFrom s pat frm = (rn : Int) ∧
      rn + pat.length ≤ s.length ∧ (s.drop rn).take pat.length = pat := by
  have hplen : 1 ≤ pat.length := by
    cases pat with
    | nil => exact absurd rfl hne
    | cons a b => simp
  cases hc : jsIndexOfCore pat (s.drop frm.toNat) with
  | none =>
    exfalso
    apply hr
    show (let f := frm.toNat; match jsIndexOfCore pat (s.drop f) with
      | some n => ((f + n : Nat) : Int) | none => -1) = -1
    dsimp only
    rw [hc]
  | some n =>
    obtain ⟨h1, h2⟩ := jsIndexOfCore_sound pat _ n hc
    rw [List.length_drop] at h1
    refine ⟨frm.toNat + n, ?_, by omega, ?_⟩
    · show (let f := frm.toNat; match jsIndexOfCore pat (s.drop f) with
        | some n => ((f + n : Nat) : Int) | none => -1) = ((frm.toNat + n : Nat) : Int)
      dsimp only
      rw [hc]
    · rw [← List.drop_drop]
      exact h2

/-- A digit character is not alphabetic. -/
theorem digit_not_alpha (c : Char) (h : isDigitC c = true) : isAlphaC c = false := by
  unfold isDigitC at h
  unfold isAlphaC
  simp only [Char.isDigit, Char.isUpper, Char.isLower] at *
  simp only [Bool.and_eq_true, decide_eq_true_eq] at h
  simp only [Bool.or_eq_false_iff, Bool.and_eq_false_iff, decide_eq_false_iff_not, not_le,
    ge_iff_le]
  obtain ⟨h1, h2⟩ := h
  constructor
  · left
    intro h3
    exact absurd (UInt32.le_trans h3 h2) (by decide)
  · left
    intro h3
    exact absurd (UInt32.le_trans h3 h2) (by decide)

theorem findFirstNumberPattern_le (t pfx n1l : Str) (len : Nat)
    (h : findFirstNumberPattern t pfx n1l = some len) : len ≤ t.length := by
  unfold findFirstNumberPattern at h
  obtain ⟨j, hj, hat⟩ := scanFrom_sound (findFirstNumberPatternAt t pfx n1l) _ _ _ h
  unfold findFirstNumberPatternAt at hat
  split at hat
  case isFalse => cases hat
  case isTrue hwb =>
  obtain ⟨_, hlen1, h1⟩ := litTok_sound t pfx j _ len hat
  obtain ⟨d, _, hd, _, h2⟩ := repCls_sound t isWsC 0 none (j + pfx.length) _ len h1
  have hdpos := repCls_pos_bound t (j + pfx.length) d hd
  obtain ⟨_, hlen2, h3⟩ := litTok_sound t n1l (j + pfx.length + d) _ len h2
  have hlenv : j + pfx.length + d + n1l.length - j = len := Option.some.inj h3
  have hjle : j ≤ t.length := wbAt_le_length t j hwb
  omega

/-- The firstPartEnd computation never exceeds the match length (modulo the
`-1` fallback slack absorbed in the hypothesis). -/
theorem firstPartEndOf_le (fullMatch pfx n1 letters : Str)
    (hlen : n1.length + letters.length ≤ fullMatch.length + 1) :
    firstPartEndOf fullMatch pfx n1 letters ≤ fullMatch.length := by
  unfold firstPartEndOf
  cases hf : findFirstNumberPattern fullMatch pfx (n1 ++ letters) with
  | some len =>
    dsimp only
    exact findFirstNumberPattern_le _ _ _ _ hf
  | none =>
    dsimp only
    cases hc : jsIndexOfCore (n1 ++ letters) fullMatch with
    | some pos =>
      have h1 := (jsIndexOfCore_sound (n1 ++ letters) fullMatch pos hc).1
      dsimp only
      omega
    | none =>
      dsimp only
      rw [List.length_append]
      omega

/-- If `/np` occurs at position `rn` of a text ending in the alphabetic
suffix `letters`, with `np` a non-empty digit group, then the occurrence
leaves room for `letters` after it. -/
theorem occ_digit_end (fullMatch aa letters np : Str) (rn : Nat)
    (hlets : ∀ c ∈ letters, isAlphaC c = true)
    (hsuf : fullMatch = aa ++ letters)
    (hnp : np ≠ []) (hdig : ∀ c ∈ np, isDigitC c = true)
    (hlen1 : rn + ('/' :: np).length ≤ fullMatch.length)
    (htake : (fullMatch.drop rn).take (('/' :: np).length) = '/' :: np) :
    rn + ('/' :: np).length + letters.length ≤ fullMatch.length := by
  by_contra hcon
  push_neg at hcon
  obtain ⟨q, d, hqd⟩ : ∃ q d, np = q ++ [d] :=
    ⟨np.dropLast, np.getLast hnp, (List.dropLast_append_getLast hnp).symm⟩
  subst hqd
  have hdd : isDigitC d = true := hdig d (by simp)
  have hfm : fullMatch = (fullMatch.take rn ++ ('/' :: q)) ++
      (d :: (fullMatch.drop rn).drop (('/' :: (q ++ [d])).length)) := by
    conv_lhs => rw [← List.take_append_drop rn fullMatch]
    conv_lhs => rw [← List.take_append_drop (('/' :: (q ++ [d])).length) (fullMatch.drop rn)]
    rw [htake]
    simp
  have hfrontlen : (fullMatch.take rn ++ ('/' :: q)).length = rn + q.length + 1 := by
    simp only [List.length_cons, List.length_append, List.length_nil] at hlen1
    simp only [List.length_append, List.length_take, List.length_cons]
    omega
  have hdropB : fullMatch.drop (rn + q.length + 1) =
      d :: (fullMatch.drop rn).drop (('/' :: (q ++ [d])).length) := by
    conv_lhs => rw [hfm, ← hfrontlen]
    exact List.drop_left _ _
  have hdropaa : fullMatch.drop aa.length = letters := by
    rw [hsuf]
    exact List.drop_left _ _
  have haalen : aa.length + letters.length = fullMatch.length := by
    rw [hsuf, List.length_append]
  have haaB : aa.length ≤ rn + q.length + 1 := by
    simp only [List.length_cons, List.length_append, List.length_nil] at hcon hlen1
    omega
  have hk : letters.drop (rn + q.length + 1 - aa.length) =
      d :: (fullMatch.drop rn).drop (('/' :: (q ++ [d])).length) := by
    rw [← hdropaa, List.drop_drop, ← hdropB]
    congr 1
    omega
  have hmem0 : d ∈ letters.drop (rn + q.length + 1 - aa.length) := by
    rw [hk]
    exact List.mem_cons_self _ _
  have halpha := hlets d (List.mem_of_mem_drop hmem0)
  rw [digit_not_alpha d hdd] at halpha
  exact Bool.noConfusion halpha

/-- Index and length of the unexpanded single candidate. -/
theorem singleCandOf_span (fullMatch : Str) (baseIndex : Nat) (p n l : Str) :
    (singleCandOf fullMatch baseIndex p n l).index = baseIndex ∧
      (singleCandOf fullMatch baseIndex p n l).length = fullMatch.length :=
  ⟨rfl, rfl⟩

/-- Every candidate produced by the additional-parts loop of
`expandCompoundCourseCode` lies inside the original match's span. -/
theorem expandTail_spans (fullMatch : Str) (baseIndex : Nat) (prefixes letters : Str)
    (hlets : ∀ c ∈ letters, isAlphaC c = true)
    (aa : Str) (hsuf : fullMatch = aa ++ letters) :
    ∀ parts, (∀ q ∈ parts, q ≠ [] ∧ ∀ c ∈ q, isDigitC c = true) →
      ∀ prev c, c ∈ expandTail fullMatch baseIndex prefixes letters prev parts →
        baseIndex ≤ c.index ∧ c.index + c.length ≤ baseIndex + fullMatch.length := by
  intro parts
  induction parts with
  | nil =>
    intro _ prev c hc
    cases hc
  | cons np rest ih =>
    intro hparts prev c hc
    simp only [expandTail] at hc
    rcases List.mem_append.mp hc with h1 | h2
    · split at h1
      · rename_i hne
        rw [List.mem_singleton] at h1
        subst h1
        obtain ⟨hqne, hqdig⟩ := hparts np (List.mem_cons_self _ _)
        obtain ⟨rn, hrn, hlen1, htake⟩ :=
          jsIndexOfFrom_sound fullMatch ('/' :: np)
            (jsIndexOf fullMatch ('/' :: prev)) (by simp) hne
        have hend := occ_digit_end fullMatch aa letters np rn hlets hsuf hqne hqdig hlen1 htake
        dsimp only
        rw [hrn]
        constructor
        · omega
        · have htn : ((rn : Int)).toNat = rn := Int.toNat_natCast rn
          rw [htn]
          simp only [List.length_cons] at hend ⊢
          omega
      · cases h1
    · exact ih (fun q hq => hparts q (List.mem_cons_of_mem _ hq)) np c h2

/-- Every candidate of the expanded list lies inside the original match's
span. -/
theorem expandedCands_spans (fullMatch : Str) (baseIndex : Nat) (prefixes letters : Str)
    (numberParts : List Str)
    (hlets : ∀ c ∈ letters, isAlphaC c = true)
    (aa : Str) (hsuf : fullMatch = aa ++ letters)
    (hhead : numberParts.headI.length + letters.length ≤ fullMatch.length + 1)
    (hparts : ∀ q ∈ numberParts.tail, q ≠ [] ∧ ∀ c ∈ q, isDigitC c = true) :
    ∀ c ∈ expandedCands fullMatch baseIndex prefixes letters numberParts,
      baseIndex ≤ c.index ∧ c.index + c.length ≤ baseIndex + fullMatch.length := by
  intro c hc
  unfold expandedCands at hc
  dsimp only at hc
  rcases List.mem_cons.mp hc with rfl | hc2
  · refine ⟨le_refl _, ?_⟩
    dsimp only
    have := firstPartEndOf_le fullMatch prefixes numberParts.headI letters hhead
    omega
  · exact expandTail_spans fullMatch baseIndex prefixes letters hlets aa hsuf
      numberParts.tail hparts numberParts.headI c hc2

/-- Every candidate returned by the catalog-driven
`expandCompoundCourseCode` lies inside the original match's span. -/
theorem expandCompound_spans (find : Str → Option Course) (fullMatch : Str)
    (baseIndex : Nat) (prefixes numbers letters : Str)
    (hnum : NumsShape numbers)
    (hlets : ∀ c ∈ letters, isAlphaC c = true)
    (aa : Str) (hsuf : fullMatch = aa ++ letters)
    (hlen : numbers.length + letters.length ≤ fullMatch.length) :
    ∀ c ∈ expandCompoundCourseCode find fullMatch baseIndex prefixes numbers letters,
      baseIndex ≤ c.index ∧ c.index + c.length ≤ baseIndex + fullMatch.length := by
  intro c hc
  obtain ⟨d0, parts, hsp, hd0ne, hd0dig, hd0len, hpartsP⟩ := jsSplit_of_numsShape numbers hnum
  unfold expandCompoundCourseCode at hc
  rw [hsp] at hc
  dsimp only at hc
  have hsingle : ∀ hx : c = singleCandOf fullMatch baseIndex prefixes numbers letters,
      baseIndex ≤ c.index ∧ c.index + c.length ≤ baseIndex + fullMatch.length := by
    intro hx
    subst hx
    obtain ⟨e1, e2⟩ := singleCandOf_span fullMatch baseIndex prefixes numbers letters
    rw [e1, e2]
    omega
  have hexp : c ∈ expandedCands fullMatch baseIndex prefixes letters (d0 :: parts) →
      baseIndex ≤ c.index ∧ c.index + c.length ≤ baseIndex + fullMatch.length := by
    intro hx
    refine expandedCands_spans fullMatch baseIndex prefixes letters (d0 :: parts)
      hlets aa hsuf ?_ ?_ c hx
    · dsimp only [List.headI]
      omega
    · dsimp only [List.tail]
      exact hpartsP
  split at hc
  · exact hsingle (List.mem_singleton.mp hc)
  · cases hfind : find (jsTrim (prefixes ++ ' ' :: (numbers ++ letters))) with
    | some course =>
      rw [hfind] at hc
      dsimp only at hc
      exact hsingle (List.mem_singleton.mp hc)
    | none =>
      rw [hfind] at hc
      dsimp only at hc
      split at hc
      · exact hexp hc
      · exact hsingle (List.mem_singleton.mp hc)

/-- Every candidate the phase-3 loop of the catalog-driven scanner emits
has a span disjoint from every shorthand span it was given. -/
theorem p3LoopV0_disjoint (find : Str → Option Course) (t : Str) (shm : List Cand) :
    ∀ fuel pos c, c ∈ p3LoopV0 find t shm fuel pos →
      ∀ s ∈ shm, c.index + c.length ≤ s.index ∨ s.index + s.length ≤ c.index := by
  intro fuel
  induction fuel with
  | zero => intro pos c hc; cases hc
  | succ f ih =>
    intro pos c hc s hs
    rw [p3LoopV0.eq_def] at hc
    simp only at hc
    cases hscan : scanFrom (matchP3v0At t) (t.length + 1 - pos) pos with
    | none => rw [hscan] at hc; cases hc
    | some m =>
      rw [hscan] at hc
      dsimp only at hc
      obtain ⟨j, hj, hmat⟩ := scanFrom_sound (matchP3v0At t) _ _ _ hscan
      obtain ⟨hidx, hb1, hb2, hb3, hb4, hb5, hb6, hshape, halpha⟩ :=
        matchP3v0At_sound t j m hmat
      split at hc
      · exact ih _ c hc s hs
      · rename_i hcond
        rcases List.mem_append.mp hc with h1 | h2
        · have hflt : ¬ (m.index < s.index + s.length ∧ m.letE > s.index) := by
            intro hab
            apply hcond
            refine List.any_eq_true.mpr ⟨s, hs, ?_⟩
            simp only [Bool.and_eq_true, decide_eq_true_eq]
            exact hab
          have hfm_len : (seg t m.index m.letE).length = m.letE - m.index :=
            seg_length t m.index m.letE hb6
          have hspan : m.index ≤ c.index ∧
              c.index + c.length ≤ m.index + (seg t m.index m.letE).length := by
            split at h1
            · refine expandCompound_spans find (seg t m.index m.letE) m.index
                (seg t m.index m.pfxE) (seg t m.numS m.numE) (seg t m.letS m.letE)
                hshape halpha (seg t m.index m.letS) ?_ ?_ c h1
              · rw [← seg_append t m.index m.letS m.letE (by omega) (by omega)]
              · rw [seg_length t m.numS m.numE (by omega),
                  seg_length t m.letS m.letE (by omega), hfm_len]
                omega
            · rw [List.mem_singleton] at h1
              subst h1
              obtain ⟨e1, e2⟩ := singleCandOf_span (seg t m.index m.letE) m.index
                (seg t m.index m.pfxE) (seg t m.numS m.numE) (seg t m.letS m.letE)
              rw [e1, e2]
              omega
          rw [hfm_len] at hspan
          omega
        · exact ih _ c h2 s hs

/-- Claim C2 (counterexample to the claim as stated): on the text
`"EC 120 - 122"` with an empty catalog, the catalog-driven
`detectCourseInText` emits the Phase-1 range candidate spanning
`[0, 12)` and a Phase-3 candidate `EC 120` spanning `[0, 6)`: the two
spans overlap, so Phase-3 spans are not disjoint from Phase-1 spans. -/
theorem C2_counterexample :
    ((detectCourseInText (fun _ => none) (str "EC 120 - 122")).map
        (fun c => (c.index, c.length, c.isRange, c.isShorthand)) =
      [(0, 12, true, false), (0, 6, false, false)]) ∧
    ¬ ((detectCourseInText (fun _ => none) (str "EC 120 - 122")).Pairwise
        (fun a b => a.index + a.length ≤ b.index ∨ b.index + b.length ≤ a.index)) := by
  constructor
  · decide
  · decide

/-- Claim C2 (amended): every candidate emitted by the Phase-3
standard/compound pass of the catalog-driven `detectCourseInText` has a
span disjoint from every span claimed by Phase 2 (shorthand detection)
in the same scan; the pass enforces nothing about Phase-1 range spans. -/
theorem C2_phase2_disjoint_amended (find : Str → Option Course) (t : Str)
    (c : Cand) (hc : c ∈ phase3Cands find t (detectShorthandCourses t))
    (s : Cand) (hs : s ∈ detectShorthandCourses t) :
    c.index + c.length ≤ s.index ∨ s.index + s.length ≤ c.index :=
  p3LoopV0_disjoint find t (detectShorthandCourses t) (t.length + 1) 0 c hc s hs

/-- Witness for C2: in `"Ge/Ay 132, 133, 137 CS 156."` the shorthand pass
claims spans and the Phase-3 pass still emits `CS 156`; the two concrete
candidates are disjoint. -/
theorem C2_witness :
    (phase3Cands (fun _ => none) (str "Ge/Ay 132, 133, 137 CS 156.")
        (detectShorthandCourses (str "Ge/Ay 132, 133, 137 CS 156."))).headI.index +
      (phase3Cands (fun _ => none) (str "Ge/Ay 132, 133, 137 CS 156.")
        (detectShorthandCourses (str "Ge/Ay 132, 133, 137 CS 156."))).headI.length ≤
      (detectShorthandCourses (str "Ge/Ay 132, 133, 137 CS 156.")).headI.index ∨
    (detectShorthandCourses (str "Ge/Ay 132, 133, 137 CS 156.")).headI.index +
      (detectShorthandCourses (str "Ge/Ay 132, 133, 137 CS 156.")).headI.length ≤
      (phase3Cands (fun _ => none) (str "Ge/Ay 132, 133, 137 CS 156.")
        (detectShorthandCourses (str "Ge/Ay 132, 133, 137 CS 156."))).headI.index :=
  C2_phase2_disjoint_amended (fun _ => none) (str "Ge/Ay 132, 133, 137 CS 156.")
    _ (by decide) _ (by decide)
